import Mathlib

/-!
Shallow embedding of the Tubular compiler middle-end (AST model, the
LoopUnrollingPass, TailRecursionPass and FunctionInliningPass of
src/src/middle_end, and the CLI configuration parsing of src/Tubular.cpp),
together with theorems settling the frozen claims about the spec.

The AST node classes live in ASTNode.hpp, which is not part of the sources
provided; the node variants, their payloads (operator string, literal value,
variable id, function id, source position) and their child lists are modelled
from the data model of spec.md section 3 and from how the pass sources access
them (GetOp, GetVarId, GetValue, GetFunId, GetFilePos, GetChild/NumChildren,
and the GetTypeName string round-trips such as "MATH2: op" / "VAR: id" /
"INT_LIT:value", which the passes parse back into the payloads).
Positions are plain numbers; the FloatLit payload stands in for the C++
double bit-for-bit (no claim computes with it).
-/

/-- AST node sum type, modelled from spec.md section 3 and the node accesses
performed by the pass sources.  An If node has an optional else branch
(2 or 3 children in the C++ tree); Return always carries its expression;
a Function node carries its parameter variable ids and its body (child 0). -/
inductive AST where
  | IntLit (pos : Nat) (value : Int)
  | FloatLit (pos : Nat) (value : Int)
  | CharLit (pos : Nat) (value : Int)
  | StringLit (pos : Nat) (value : String)
  | Var (pos : Nat) (varId : Nat)
  | Break (pos : Nat)
  | Continue (pos : Nat)
  | Math1 (pos : Nat) (op : String) (child : AST)
  | Math2 (pos : Nat) (op : String) (left right : AST)
  | ToInt (pos : Nat) (child : AST)
  | ToDouble (pos : Nat) (child : AST)
  | ToString (pos : Nat) (child : AST)
  | Indexing (pos : Nat) (base index : AST)
  | Size (pos : Nat) (arg : AST)
  | FunctionCall (pos : Nat) (funId : Nat) (args : List AST)
  | If (pos : Nat) (cond thenB : AST) (elseB : Option AST)
  | While (pos : Nat) (cond body : AST)
  | Return (pos : Nat) (expr : AST)
  | Block (pos : Nat) (children : List AST)
  | Function (pos : Nat) (funId : Nat) (paramIds : List Nat) (body : AST)
  deriving Repr

/-- GetFilePos of a node. -/
def AST.pos : AST → Nat
  | .IntLit p _ => p
  | .FloatLit p _ => p
  | .CharLit p _ => p
  | .StringLit p _ => p
  | .Var p _ => p
  | .Break p => p
  | .Continue p => p
  | .Math1 p _ _ => p
  | .Math2 p _ _ _ => p
  | .ToInt p _ => p
  | .ToDouble p _ => p
  | .ToString p _ => p
  | .Indexing p _ _ => p
  | .Size p _ => p
  | .FunctionCall p _ _ => p
  | .If p _ _ _ => p
  | .While p _ _ => p
  | .Return p _ => p
  | .Block p _ => p
  | .Function p _ _ _ => p

mutual
/-- NodeCounter (src/src/core/NodeCounter.hpp): every visited node counts 1,
parent nodes visit all children. -/
def AST.nodeCount : AST → Nat
  | .IntLit _ _ => 1
  | .FloatLit _ _ => 1
  | .CharLit _ _ => 1
  | .StringLit _ _ => 1
  | .Var _ _ => 1
  | .Break _ => 1
  | .Continue _ => 1
  | .Math1 _ _ c => 1 + c.nodeCount
  | .Math2 _ _ l r => 1 + l.nodeCount + r.nodeCount
  | .ToInt _ c => 1 + c.nodeCount
  | .ToDouble _ c => 1 + c.nodeCount
  | .ToString _ c => 1 + c.nodeCount
  | .Indexing _ b i => 1 + b.nodeCount + i.nodeCount
  | .Size _ a => 1 + a.nodeCount
  | .FunctionCall _ _ args => 1 + AST.nodeCountList args
  | .If _ c t none => 1 + c.nodeCount + t.nodeCount
  | .If _ c t (some e) => 1 + c.nodeCount + t.nodeCount + e.nodeCount
  | .While _ c b => 1 + c.nodeCount + b.nodeCount
  | .Return _ e => 1 + e.nodeCount
  | .Block _ cs => 1 + AST.nodeCountList cs
  | .Function _ _ _ b => 1 + b.nodeCount
def AST.nodeCountList : List AST → Nat
  | [] => 0
  | c :: t => c.nodeCount + AST.nodeCountList t
end

mutual
/-- Whether a subtree contains a FunctionCall node anywhere (node included). -/
def AST.containsCall : AST → Bool
  | .FunctionCall _ _ _ => true
  | .Math1 _ _ c => c.containsCall
  | .Math2 _ _ l r => l.containsCall || r.containsCall
  | .ToInt _ c => c.containsCall
  | .ToDouble _ c => c.containsCall
  | .ToString _ c => c.containsCall
  | .Indexing _ b i => b.containsCall || i.containsCall
  | .Size _ a => a.containsCall
  | .If _ c t none => c.containsCall || t.containsCall
  | .If _ c t (some e) => c.containsCall || t.containsCall || e.containsCall
  | .While _ c b => c.containsCall || b.containsCall
  | .Return _ e => e.containsCall
  | .Block _ cs => AST.containsCallList cs
  | .Function _ _ _ b => b.containsCall
  | _ => false
def AST.containsCallList : List AST → Bool
  | [] => false
  | c :: t => c.containsCall || AST.containsCallList t
end

/-- Integer meaning of one binary operator, with the C convention that a
comparison yields 1 or 0. -/
def evalMath2Op (op : String) (a b : Int) : Option Int :=
  if op = "+" then some (a + b)
  else if op = "-" then some (a - b)
  else if op = "*" then some (a * b)
  else if op = "<" then some (if a < b then 1 else 0)
  else if op = "<=" then some (if a ≤ b then 1 else 0)
  else if op = ">" then some (if a > b then 1 else 0)
  else if op = ">=" then some (if a ≥ b then 1 else 0)
  else none

/-- Integer semantics of the Var / IntLit / Math2 expression fragment.
Used to state that the adjusted loop conditions built by the unroller are
equivalent, over the integers, to the bound formulas of the spec. -/
def evalExpr (env : Nat → Int) : AST → Option Int
  | .IntLit _ n => some n
  | .Var _ v => some (env v)
  | .Math2 _ op l r =>
      match evalExpr env l, evalExpr env r with
      | some a, some b => evalMath2Op op a b
      | _, _ => none
  | _ => none

namespace LoopUnroll

/-- LoopPattern (LoopUnrollingPass.hpp lines 12-22).  The source stores the
loop variable and bound as strings parsed out of GetTypeName; the loop
variable is its numeric id here, the bound keeps the string rendering.
incrementNode is a pointer into the body; it is modelled as the index of
that child in the body block. -/
structure LoopPattern where
  loopVar : Nat
  comparison : String
  boundVar : String
  increment : Int
  isConstantBound : Bool
  isUnrollable : Bool
  incrementIdx : Option Nat
  deriving Repr

/-- Default-constructed LoopPattern (LoopUnrollingPass.hpp line 21). -/
def LoopPattern.empty : LoopPattern :=
  { loopVar := 0, comparison := "", boundVar := "", increment := 0,
    isConstantBound := false, isUnrollable := false, incrementIdx := none }

/-- LoopAnalyzer::isSimpleIncrement (lines 90-131): an assignment
v = v + k or v = v - k with k an integer literal; yields the variable id and
the signed step. -/
def isSimpleIncrement (n : AST) : Option (Nat × Int) :=
  match n with
  | .Math2 _ op lhs rhs =>
      if op = "=" then
        match lhs with
        | .Var _ varName =>
            match rhs with
            | .Math2 _ rightOp addLhs addRhs =>
                if rightOp = "+" ∨ rightOp = "-" then
                  match addLhs with
                  | .Var _ addLeft =>
                      if addLeft = varName then
                        match addRhs with
                        | .IntLit _ k => some (varName, if rightOp = "-" then -k else k)
                        | _ => none
                      else none
                  | _ => none
                else none
            | _ => none
        | _ => none
      else none
  | _ => none

/-- LoopAnalyzer::isSimpleComparison (lines 133-170): a Math2 comparison with
a variable on the left and a variable or integer literal on the right.
An integer-literal condition (the while(1) check, and any other literal by
fallthrough) is rejected. -/
def isSimpleComparison (n : AST) : Option (Nat × String × String) :=
  match n with
  | .IntLit _ _ => none
  | .Math2 _ op lhs rhs =>
      if op = "<=" ∨ op = "<" ∨ op = ">=" ∨ op = ">" ∨ op = "!=" ∨ op = "==" then
        match lhs with
        | .Var _ leftVar =>
            match rhs with
            | .Var _ rightVar => some (leftVar, op, toString rightVar)
            | .IntLit _ n => some (leftVar, op, toString n)
            | _ => none
        | _ => none
      else none
  | _ => none

mutual
/-- LoopAnalyzer::hasUnsuitableControlFlow (lines 212-251): break, continue,
return or a nested while anywhere in the subtree. -/
def hasUnsuitableControlFlow : AST → Bool
  | .Break _ => true
  | .Continue _ => true
  | .Return _ _ => true
  | .While _ _ _ => true
  | .Math1 _ _ c => hasUnsuitableControlFlow c
  | .Math2 _ _ l r => hasUnsuitableControlFlow l || hasUnsuitableControlFlow r
  | .ToInt _ c => hasUnsuitableControlFlow c
  | .ToDouble _ c => hasUnsuitableControlFlow c
  | .ToString _ c => hasUnsuitableControlFlow c
  | .Indexing _ b i => hasUnsuitableControlFlow b || hasUnsuitableControlFlow i
  | .Size _ a => hasUnsuitableControlFlow a
  | .FunctionCall _ _ args => hasUnsuitableControlFlowList args
  | .If _ c t none => hasUnsuitableControlFlow c || hasUnsuitableControlFlow t
  | .If _ c t (some e) =>
      hasUnsuitableControlFlow c || hasUnsuitableControlFlow t || hasUnsuitableControlFlow e
  | .Block _ cs => hasUnsuitableControlFlowList cs
  | .Function _ _ _ b => hasUnsuitableControlFlow b
  | _ => false
def hasUnsuitableControlFlowList : List AST → Bool
  | [] => false
  | c :: t => hasUnsuitableControlFlow c || hasUnsuitableControlFlowList t
end

/-- LoopAnalyzer::isAssignmentTo (lines 273-283): a Math2 with operator =
whose first child is a Var with the given id. -/
def isAssignmentTo (n : AST) (varName : Nat) : Bool :=
  match n with
  | .Math2 _ "=" (.Var _ v) _ => v = varName
  | _ => false

/-- LoopAnalyzer::hasMultipleAssignments (lines 254-270): more than one
direct child of the body block assigns to the variable. -/
def hasMultipleAssignments (cs : List AST) (varName : Nat) : Bool :=
  (cs.countP (fun c => isAssignmentTo c varName)) > 1

/-- Helper for findIncrementStatement: first index (with its node) among the
direct children that isSimpleIncrement accepts for the given variable. -/
def findIncrementAux (varName : Nat) : Nat → List AST → Option (Nat × AST)
  | _, [] => none
  | j, c :: t =>
      match isSimpleIncrement c with
      | some (incVar, _) =>
          if incVar = varName then some (j, c) else findIncrementAux varName (j + 1) t
      | none => findIncrementAux varName (j + 1) t

/-- LoopAnalyzer::findIncrementStatement (lines 172-185): scans the direct
children of the body block; the source returns a pointer to the node, which
is modelled as the index of the child together with the node. -/
def findIncrementStatement (cs : List AST) (varName : Nat) : Option (Nat × AST) :=
  findIncrementAux varName 0 cs

/-- LoopAnalyzer::analyzeLoop (lines 31-87). -/
def analyzeLoop : AST → LoopPattern
  | .While _ cond body =>
      match isSimpleComparison cond with
      | none => LoopPattern.empty
      | some (leftVar, op, rightVar) =>
          match body with
          | .Block _ cs =>
              if hasUnsuitableControlFlowList cs then LoopPattern.empty
              else
                match findIncrementStatement cs leftVar with
                | none => LoopPattern.empty
                | some (idx, incrementNode) =>
                    match isSimpleIncrement incrementNode with
                    | none => LoopPattern.empty
                    | some (incVar, increment) =>
                        if incVar ≠ leftVar then LoopPattern.empty
                        else if hasMultipleAssignments cs leftVar then LoopPattern.empty
                        else if op = "<=" ∨ op = "<" ∨ op = ">" ∨ op = ">=" ∨
                                op = "!=" ∨ op = "==" then
                          { loopVar := leftVar, comparison := op, boundVar := rightVar,
                            increment := increment, isConstantBound := true,
                            isUnrollable := true, incrementIdx := some idx }
                        else LoopPattern.empty
          | _ => LoopPattern.empty
  | _ => LoopPattern.empty

mutual
/-- The pass-local ASTCloner::clone (LoopUnrollingPass.hpp lines 286-372):
only Math2, Var, IntLit and Block nodes are supported; every other node kind
yields an empty result. -/
def cloneNode : AST → Option AST
  | .Math2 p op l r =>
      match cloneNode l, cloneNode r with
      | some a, some b => some (.Math2 p op a b)
      | _, _ => none
  | .Var p v => some (.Var p v)
  | .IntLit p v => some (.IntLit p v)
  | .Block p cs => some (.Block p (cloneListDrop cs))
  | _ => none
/-- ASTCloner::cloneBlock child loop (lines 319-327): children whose clone
fails are silently dropped from the new block. -/
def cloneListDrop : List AST → List AST
  | [] => []
  | c :: t =>
      match cloneNode c with
      | some c' => c' :: cloneListDrop t
      | none => cloneListDrop t
end

/-- adjustConditionForUnrolling (lines 550-623).  The four supported
operator/direction pairs rebuild the comparison against an adjusted bound;
anything else falls back to a plain clone of the original condition.
The source never null-checks the cloned bound before wiring it into the new
Math2 node; a failed bound clone is modelled as an overall failure
(that path is unreachable for analyzed candidates, whose bound is a Var or
IntLit). -/
def adjustConditionForUnrolling (unrollFactor : Int) (originalCondition : AST)
    (pat : LoopPattern) : Option AST :=
  match originalCondition with
  | .Math2 p op lhs rhs =>
      if op = "<" ∧ pat.increment > 0 then
        match cloneNode lhs with
        | some leftClone =>
            match cloneNode rhs with
            | some boundClone =>
                some (.Math2 p "<" leftClone
                  (.Math2 p "-" boundClone (.IntLit p (unrollFactor - 1))))
            | none => none
        | none => cloneNode originalCondition
      else if op = "<=" ∧ pat.increment > 0 then
        match cloneNode lhs with
        | some leftClone =>
            match cloneNode rhs with
            | some boundClone =>
                some (.Math2 p "<=" leftClone
                  (.Math2 p "-" boundClone (.IntLit p unrollFactor)))
            | none => none
        | none => cloneNode originalCondition
      else if op = ">" ∧ pat.increment < 0 then
        match cloneNode lhs with
        | some leftClone =>
            match cloneNode rhs with
            | some boundClone =>
                some (.Math2 p ">" leftClone
                  (.Math2 p "+" boundClone (.IntLit p (unrollFactor - 1))))
            | none => none
        | none => cloneNode originalCondition
      else if op = ">=" ∧ pat.increment < 0 then
        match cloneNode lhs with
        | some leftClone =>
            match cloneNode rhs with
            | some boundClone =>
                some (.Math2 p ">=" leftClone
                  (.Math2 p "+" boundClone (.IntLit p unrollFactor)))
            | none => none
        | none => cloneNode originalCondition
      else cloneNode originalCondition
  | _ => cloneNode originalCondition

/-- cloneWithInductionVariableSubstitution (lines 667-705): a reference to
the loop variable in a nonzero-offset copy becomes loopVar + offset
(loopVar - |offset| for a negative offset); Math2 recurses, with a fallback
to the plain cloner when a child substitution fails; every other node kind
is cloned plainly. -/
def cloneWithIVS (loopVar : Nat) (offset : Int) : AST → Option AST
  | .Var p v =>
      if v = loopVar ∧ offset ≠ 0 then
        some (.Math2 p (if offset ≥ 0 then "+" else "-") (.Var p v)
          (.IntLit p (if offset < 0 then -offset else offset)))
      else some (.Var p v)
  | .Math2 p op l r =>
      match cloneWithIVS loopVar offset l, cloneWithIVS loopVar offset r with
      | some a, some b => some (.Math2 p op a b)
      | _, _ => cloneNode (.Math2 p op l r)
  | n => cloneNode n

/-- createFinalIncrement (lines 708-740): loopVar = loopVar + factor * step,
built from the increment node (its first child supplies the variable and its
position; the assignment node supplies the positions of the new literal and
operators). -/
def createFinalIncrement (unrollFactor : Int) (incrementNode : Option AST)
    (increment : Int) : Option AST :=
  match incrementNode with
  | some (.Math2 ppos _ (.Var vpos varId) _) =>
      some (.Math2 ppos "=" (.Var vpos varId)
        (.Math2 ppos "+" (.Var vpos varId) (.IntLit ppos (unrollFactor * increment))))
  | _ => none

/-- One unrolled copy of the body (the inner loop of createFullyUnrolledBody,
lines 629-646): children are visited with their index, the increment
statement (identified in the source by pointer equality with
pattern.incrementNode, here by its index) is skipped, and children whose
substitution-clone fails are silently dropped. -/
def cloneIterAux (loopVar : Nat) (offset : Int) (incIdx : Option Nat) :
    Nat → List AST → List AST
  | _, [] => []
  | j, c :: t =>
      let rest := cloneIterAux loopVar offset incIdx (j + 1) t
      if some j = incIdx then rest
      else
        match cloneWithIVS loopVar offset c with
        | some c' => c' :: rest
        | none => rest

/-- createFullyUnrolledBody (lines 625-655): factor copies of the body with
offsets 0, step, 2*step, ..., followed by the single combined increment. -/
def createFullyUnrolledBody (unrollFactor : Int) (bodyPos : Nat) (cs : List AST)
    (pat : LoopPattern) : AST :=
  let copies := (List.range unrollFactor.toNat).map
    (fun i => cloneIterAux pat.loopVar ((i : Int) * pat.increment) pat.incrementIdx 0 cs)
  let finalIncrement := createFinalIncrement unrollFactor
    (pat.incrementIdx.bind (fun idx => cs.get? idx)) pat.increment
  .Block bodyPos (copies.flatten ++ finalIncrement.toList)

/-- createMainUnrolledLoop (lines 505-531). -/
def createMainUnrolledLoop (unrollFactor : Int) (original : AST)
    (pat : LoopPattern) : Option AST :=
  match original with
  | .While p cond (.Block bp cs) =>
      let unrolledBody := createFullyUnrolledBody unrollFactor bp cs pat
      match adjustConditionForUnrolling unrollFactor cond pat with
      | some adjustedCondition => some (.While p adjustedCondition unrolledBody)
      | none => none
  | _ => none

/-- createRemainderLoop (lines 533-548): a pass-local-cloner copy of the
original while. -/
def createRemainderLoop (original : AST) : Option AST :=
  match original with
  | .While p cond body =>
      match cloneNode cond, cloneNode body with
      | some c, some b => some (.While p c b)
      | _, _ => none
  | _ => none

/-- createUnrolledBlock (lines 487-503): a block collecting whichever of the
main unrolled loop and the remainder loop could be built; a loop whose
construction failed is simply absent from the block. -/
def createUnrolledBlock (unrollFactor : Int) (original : AST)
    (pat : LoopPattern) : AST :=
  .Block original.pos
    ((createMainUnrolledLoop unrollFactor original pat).toList ++
     (createRemainderLoop original).toList)

/-- The per-statement decision of processBlock (lines 416-442): a While child
whose pattern analysis marks it unrollable is unconditionally replaced by the
unrolled block (createUnrolledBlock never returns null); any other child is
left in place (modelled as no rewrite). -/
def unrollWhileStatement (unrollFactor : Int) (w : AST) : Option AST :=
  let pat := analyzeLoop w
  if pat.isUnrollable then some (createUnrolledBlock unrollFactor w pat) else none

mutual
/-- The fragment the pass-local cloner supports (Math2 / Var / IntLit / Block
through and through). -/
def clonable : AST → Bool
  | .Math2 _ _ l r => clonable l && clonable r
  | .Var _ _ => true
  | .IntLit _ _ => true
  | .Block _ cs => clonableList cs
  | _ => false
def clonableList : List AST → Bool
  | [] => true
  | c :: t => clonable c && clonableList t
end

end LoopUnroll

namespace TailRec

mutual
/-- TailRecursionPass::Cloner::clone (TailRecursionPass.hpp lines 16-70).
Supported node kinds are copied; ToInt / ToDouble / ToString and Function
nodes hit no dynamic_cast case and yield an empty result.  The CharLit case
stores (int)(GetTypeName().size() > 0) as the new literal value: the type
name of a char literal is never empty, so every cloned char literal carries
the value 1 whatever the original character was. -/
def clone : AST → Option AST
  | .Block p cs => some (.Block p (cloneDropList cs))
  | .While p c b =>
      match clone c, clone b with
      | some t, some a => some (.While p t a)
      | _, _ => none
  | .If p c t none =>
      match clone c, clone t with
      | some x, some y => some (.If p x y none)
      | _, _ => none
  | .If p c t (some e) =>
      match clone c, clone t, clone e with
      | some x, some y, some z => some (.If p x y (some z))
      | _, _, _ => none
  | .Return p e =>
      match clone e with
      | some x => some (.Return p x)
      | none => none
  | .Math2 p op l r =>
      match clone l, clone r with
      | some a, some b => some (.Math2 p op a b)
      | _, _ => none
  | .Math1 p op c =>
      match clone c with
      | some x => some (.Math1 p op x)
      | none => none
  | .Var p v => some (.Var p v)
  | .IntLit p v => some (.IntLit p v)
  | .FloatLit p v => some (.FloatLit p v)
  | .CharLit p _ => some (.CharLit p 1)
  | .StringLit p s => some (.StringLit p s)
  | .FunctionCall p f args => some (.FunctionCall p f (cloneDropList args))
  | .Indexing p b i =>
      match clone b, clone i with
      | some x, some y => some (.Indexing p x y)
      | _, _ => none
  | .Size p a =>
      match clone a with
      | some x => some (.Size p x)
      | none => none
  | .Break p => some (.Break p)
  | .Continue p => some (.Continue p)
  | _ => none
/-- The child loops of cloneBlock (line 39) and cloneCall (line 61): children
whose clone fails are silently dropped. -/
def cloneDropList : List AST → List AST
  | [] => []
  | c :: t =>
      match clone c with
      | some c' => c' :: cloneDropList t
      | none => cloneDropList t
end

mutual
/-- Fragment on which Cloner::clone is a faithful copy: every supported node
kind except CharLit (whose value the clone rewrites to 1). -/
def clonable : AST → Bool
  | .Block _ cs => clonableList cs
  | .While _ c b => clonable c && clonable b
  | .If _ c t none => clonable c && clonable t
  | .If _ c t (some e) => clonable c && clonable t && clonable e
  | .Return _ e => clonable e
  | .Math2 _ _ l r => clonable l && clonable r
  | .Math1 _ _ c => clonable c
  | .Var _ _ => true
  | .IntLit _ _ => true
  | .FloatLit _ _ => true
  | .StringLit _ _ => true
  | .FunctionCall _ _ args => clonableList args
  | .Indexing _ b i => clonable b && clonable i
  | .Size _ a => clonable a
  | .Break _ => true
  | .Continue _ => true
  | _ => false
def clonableList : List AST → Bool
  | [] => true
  | c :: t => clonable c && clonableList t
end

mutual
/-- CollectParamDeps (lines 88-95): for every Var node, record the first
index at which its id appears in the parameter list (the source inserts into
an unordered_set; the list returned here may repeat indices and is
deduplicated at the use site). -/
def collectParamDeps (params : List Nat) : AST → List Nat
  | .Var _ vid =>
      match params.indexOf? vid with
      | some idx => [idx]
      | none => []
  | .Math1 _ _ c => collectParamDeps params c
  | .Math2 _ _ l r => collectParamDeps params l ++ collectParamDeps params r
  | .ToInt _ c => collectParamDeps params c
  | .ToDouble _ c => collectParamDeps params c
  | .ToString _ c => collectParamDeps params c
  | .Indexing _ b i => collectParamDeps params b ++ collectParamDeps params i
  | .Size _ a => collectParamDeps params a
  | .FunctionCall _ _ args => collectParamDepsList params args
  | .If _ c t none => collectParamDeps params c ++ collectParamDeps params t
  | .If _ c t (some e) =>
      collectParamDeps params c ++ collectParamDeps params t ++ collectParamDeps params e
  | .While _ c b => collectParamDeps params c ++ collectParamDeps params b
  | .Return _ e => collectParamDeps params e
  | .Block _ cs => collectParamDepsList params cs
  | .Function _ _ _ b => collectParamDeps params b
  | _ => []
def collectParamDepsList (params : List Nat) : List AST → List Nat
  | [] => []
  | c :: t => collectParamDeps params c ++ collectParamDepsList params t
end

/-- rhsClones (transformNode lines 146-153): the Cloner copy of each
argument of the tail call. -/
def rhsClones (args : List AST) : List (Option AST) := args.map clone

/-- deps i (lines 147-153): parameter indices read by the clone of argument
i; empty when the clone failed.  Deduplicated, mirroring the set. -/
def depsAt (params : List Nat) (args : List AST) (i : Nat) : List Nat :=
  match (rhsClones args).get? i with
  | some (some r) => (collectParamDeps params r).dedup
  | _ => []

/-- isIdentity (lines 156-161): the cloned argument is exactly the matching
parameter variable. -/
def isIdentityAt (params : List Nat) (args : List AST) (i : Nat) : Bool :=
  match (rhsClones args).get? i with
  | some (some (.Var _ v)) => params.get? i = some v
  | _ => false

/-- nodes (lines 163-164): indices of non-identity assignments. -/
def nodesOf (params : List Nat) (args : List AST) : List Nat :=
  (List.range params.length).filter (fun i => ¬ isIdentityAt params args i)

/-- graph (lines 167-177): adjacency i -> j when the right-hand side of
assignment i reads parameter j, restricted to distinct non-identity
indices. -/
def adjOf (params : List Nat) (args : List AST) (i : Nat) : List Nat :=
  if i ∈ nodesOf params args then
    (depsAt params args i).filter (fun j => j ≠ i ∧ j ∈ nodesOf params args)
  else []

/-- The in-degree accumulated by the edge loop (line 175), in closed form:
the number of sources whose adjacency list contains j (each adjacency list
is duplicate-free). -/
def indeg0Of (params : List Nat) (args : List AST) (j : Nat) : Int :=
  ((nodesOf params args).countP (fun i => j ∈ adjOf params args i) : Nat)

/-- The Kahn queue loop (lines 178-183).  Popping u appends it to the order,
decrements the in-degree of each of its targets once (the adjacency lists
are duplicate-free, so the sequential decrements of the source equal this
closed form) and enqueues the targets whose in-degree reached exactly 0, in
adjacency order.  The fuel argument only bounds the iteration; every index
is enqueued at most once, so any fuel past the node count leaves the result
identical to running the source loop until the queue empties. -/
def kahnRun (adj : Nat → List Nat) : Nat → List Nat → (Nat → Int) → List Nat → List Nat
  | 0, _, _, order => order
  | _ + 1, [], _, order => order
  | fuel + 1, u :: rest, indeg, order =>
      let pushes := (adj u).filter (fun v => indeg v - 1 = 0)
      let indeg' := fun v => if v ∈ adj u then indeg v - 1 else indeg v
      kahnRun adj fuel (rest ++ pushes) indeg' (order ++ [u])

/-- The topological order computed for a tail call (lines 178-183): initial
queue of in-degree-0 nodes in node order, then the queue loop. -/
def kahnOrderOf (params : List Nat) (args : List AST) : List Nat :=
  let nodes := nodesOf params args
  kahnRun (adjOf params args) ((nodes.length + 1) * (nodes.length + 1))
    (nodes.filter (fun i => indeg0Of params args i = 0))
    (indeg0Of params args) []

/-- The assignment sequence emitted in topological order (lines 190-198):
for each index, parameter := Cloner copy of the already-cloned right-hand
side.  The source dereferences the stored clone without a null check; a
missing clone is modelled as skipping that assignment (no theorem reaches
that path). -/
def emitAssignments (p : Nat) (params : List Nat) (args : List AST)
    (order : List Nat) : List AST :=
  order.filterMap (fun i =>
    match params.get? i, (rhsClones args).get? i with
    | some pid, some (some r) =>
        match clone r with
        | some rr => some (.Math2 p "=" (.Var p pid) rr)
        | none => none
    | _, _ => none)

/-- The Return case of transformNode (lines 139-206): a tail self call with
matching arity is turned into the topologically ordered parallel-assignment
block followed by Continue, unless the Kahn order is incomplete (a
dependency cycle), in which case - and for every other Return - the Return
is cloned unchanged. -/
def transformReturn (selfId : Nat) (params : List Nat) (p : Nat) (e : AST) :
    Option AST × Bool :=
  match e with
  | .FunctionCall _ fid args =>
      if fid = selfId ∧ args.length = params.length then
        let nodes := nodesOf params args
        let order := kahnOrderOf params args
        if order.length ≠ nodes.length then
          (clone (.Return p e), false)
        else
          (some (.Block p (emitAssignments p params args order ++ [.Continue p])), true)
      else (clone (.Return p e), false)
  | _ => (clone (.Return p e), false)

mutual
/-- transformNode (lines 137-236).  The Bool result is the delta this call
makes to the by-reference changed flag of the source. -/
def transformNode (selfId : Nat) (params : List Nat) : AST → Option AST × Bool
  | .Return p e => transformReturn selfId params p e
  | .If p c t none =>
      let test := clone c
      let thenPair := transformBranch selfId params t
      match test, thenPair.1 with
      | some x, some y => (some (.If p x y none), thenPair.2)
      | _, _ => (clone (.If p c t none), thenPair.2)
  | .If p c t (some e) =>
      let test := clone c
      let thenPair := transformBranch selfId params t
      let elsePair := transformBranch selfId params e
      match test, thenPair.1, elsePair.1 with
      | some x, some y, some z => (some (.If p x y (some z)), thenPair.2 || elsePair.2)
      | _, _, _ => (clone (.If p c t (some e)), thenPair.2 || elsePair.2)
  | .Block p cs =>
      let listPair := transformList selfId params cs
      (some (.Block p listPair.1), listPair.2)
  | n => (clone n, false)
/-- transformNodeAsBlock (lines 238-246) as applied to an If branch: a block
branch is transformed directly (the Block case of transformNode), a Return
or If branch is transformed (their transformNode cases, spelled out here so
the recursion stays structural) and wrapped in a singleton or empty block at
its own position, and any other branch is wrapped as its plain clone. -/
def transformBranch (selfId : Nat) (params : List Nat) : AST → Option AST × Bool
  | .Block p cs =>
      let listPair := transformList selfId params cs
      (some (.Block p listPair.1), listPair.2)
  | .Return p e =>
      let nodePair := transformReturn selfId params p e
      (some (.Block p nodePair.1.toList), nodePair.2)
  | .If p c t none =>
      let test := clone c
      let thenPair := transformBranch selfId params t
      let nodePair : Option AST × Bool :=
        match test, thenPair.1 with
        | some x, some y => (some (.If p x y none), thenPair.2)
        | _, _ => (clone (.If p c t none), thenPair.2)
      (some (.Block p nodePair.1.toList), nodePair.2)
  | .If p c t (some e) =>
      let test := clone c
      let thenPair := transformBranch selfId params t
      let elsePair := transformBranch selfId params e
      let nodePair : Option AST × Bool :=
        match test, thenPair.1, elsePair.1 with
        | some x, some y, some z => (some (.If p x y (some z)), thenPair.2 || elsePair.2)
        | _, _, _ => (clone (.If p c t (some e)), thenPair.2 || elsePair.2)
      (some (.Block p nodePair.1.toList), nodePair.2)
  | n => (some (.Block n.pos (clone n).toList), false)
/-- The Block child loop of transformNode (line 230): transformed children
that come back empty are dropped; the changed flags are accumulated. -/
def transformList (selfId : Nat) (params : List Nat) : List AST → List AST × Bool
  | [] => ([], false)
  | c :: t =>
      let headPair := transformNode selfId params c
      let tailPair := transformList selfId params t
      match headPair.1 with
      | some c' => (c' :: tailPair.1, headPair.2 || tailPair.2)
      | none => (tailPair.1, headPair.2 || tailPair.2)
end

/-- transformForTailCalls (lines 118-135): the body must be a block; its
children are transformed and collected, and the new block is returned only
when some tail call was rewritten. -/
def transformForTailCalls (selfId : Nat) (params : List Nat) (body : AST) : Option AST :=
  match body with
  | .Block p cs =>
      let listPair := transformList selfId params cs
      if listPair.2 then some (.Block p listPair.1) else none
  | _ => none

/-- optimizeFunction (lines 97-116): on success the function body becomes
Block [ While (IntLit 1) transformedBody, Return (IntLit 0) ], all at the
function position.  The result is the new body (the source installs it with
ReplaceChild). -/
def optimizeFunction : AST → Option AST
  | .Function p selfId params body =>
      match transformForTailCalls selfId params body with
      | some b =>
          some (.Block p [.While p (.IntLit p 1) b, .Return p (.IntLit p 0)])
      | none => none
  | _ => none

end TailRec

namespace Inlining

/-- The function map of FunctionInliningPass (collectFunctions stores
functionMap[funId] = fn, so a later entry overwrites an earlier one);
lookup therefore takes the last binding of the id. -/
def lookupFun (functionMap : List (Nat × AST)) (funId : Nat) : Option AST :=
  (functionMap.reverse.find? (fun e => e.1 = funId)).map (fun e => e.2)

mutual
/-- cloneWithSubstitution with the empty parameter map
(FunctionInliningPass.hpp lines 19-104): a plain deep copy.  CharLit, Break,
Continue and Function nodes hit no dynamic_cast case and yield an empty
result.  Where the source wires an unchecked possibly-null child into a new
node (Math1, the casts, Indexing, Size and call arguments), the failure is
propagated instead; no theorem reaches those paths.  Block children whose
clone fails are dropped (cloneBlock line 163); a Return whose expression
clone fails falls back to returning the literal 0 (cloneReturn lines
152-154). -/
def cloneEmptyMap : AST → Option AST
  | .Var p v => some (.Var p v)
  | .Math2 p op l r =>
      match cloneEmptyMap l, cloneEmptyMap r with
      | some a, some b => some (.Math2 p op a b)
      | _, _ => none
  | .Math1 p op c =>
      match cloneEmptyMap c with
      | some x => some (.Math1 p op x)
      | none => none
  | .FunctionCall p f args =>
      match cloneEmptyMapStrict args with
      | some xs => some (.FunctionCall p f xs)
      | none => none
  | .IntLit p v => some (.IntLit p v)
  | .FloatLit p v => some (.FloatLit p v)
  | .StringLit p s => some (.StringLit p s)
  | .Return p e =>
      match cloneEmptyMap e with
      | some x => some (.Return p x)
      | none => some (.Return p (.IntLit p 0))
  | .Block p cs => some (.Block p (cloneEmptyMapDrop cs))
  | .If p c t none =>
      match cloneEmptyMap c, cloneEmptyMap t with
      | some x, some y => some (.If p x y none)
      | _, _ => none
  | .If p c t (some e) =>
      match cloneEmptyMap c, cloneEmptyMap t, cloneEmptyMap e with
      | some x, some y, some z => some (.If p x y (some z))
      | _, _, _ => none
  | .While p c b =>
      match cloneEmptyMap c, cloneEmptyMap b with
      | some x, some y => some (.While p x y)
      | _, _ => none
  | .ToDouble p c =>
      match cloneEmptyMap c with
      | some x => some (.ToDouble p x)
      | none => none
  | .ToInt p c =>
      match cloneEmptyMap c with
      | some x => some (.ToInt p x)
      | none => none
  | .ToString p c =>
      match cloneEmptyMap c with
      | some x => some (.ToString p x)
      | none => none
  | .Indexing p b i =>
      match cloneEmptyMap b, cloneEmptyMap i with
      | some x, some y => some (.Indexing p x y)
      | _, _ => none
  | .Size p a =>
      match cloneEmptyMap a with
      | some x => some (.Size p x)
      | none => none
  | _ => none
def cloneEmptyMapStrict : List AST → Option (List AST)
  | [] => some []
  | c :: t =>
      match cloneEmptyMap c, cloneEmptyMapStrict t with
      | some c', some t' => some (c' :: t')
      | _, _ => none
def cloneEmptyMapDrop : List AST → List AST
  | [] => []
  | c :: t =>
      match cloneEmptyMap c with
      | some c' => c' :: cloneEmptyMapDrop t
      | none => cloneEmptyMapDrop t
end

mutual
/-- cloneWithSubstitution (lines 19-104) with a parameter map.  A Var bound
in the map is replaced by a clone (with the empty map, line 23) of the
stored argument expression; the source stores the pre-cloned argument and
would chase a null pointer when that pre-clone failed, modelled as a failed
substitution (no theorem reaches it).  All other cases are as in
cloneEmptyMap but thread the map through. -/
def cloneWithSubstitution (paramMap : List (Nat × Option AST)) : AST → Option AST
  | .Var p v =>
      match paramMap.find? (fun e => e.1 = v) with
      | some (_, some a) => cloneEmptyMap a
      | some (_, none) => none
      | none => some (.Var p v)
  | .Math2 p op l r =>
      match cloneWithSubstitution paramMap l, cloneWithSubstitution paramMap r with
      | some a, some b => some (.Math2 p op a b)
      | _, _ => none
  | .Math1 p op c =>
      match cloneWithSubstitution paramMap c with
      | some x => some (.Math1 p op x)
      | none => none
  | .FunctionCall p f args =>
      match cloneSubstStrict paramMap args with
      | some xs => some (.FunctionCall p f xs)
      | none => none
  | .IntLit p v => some (.IntLit p v)
  | .FloatLit p v => some (.FloatLit p v)
  | .StringLit p s => some (.StringLit p s)
  | .Return p e =>
      match cloneWithSubstitution paramMap e with
      | some x => some (.Return p x)
      | none => some (.Return p (.IntLit p 0))
  | .Block p cs => some (.Block p (cloneSubstDrop paramMap cs))
  | .If p c t none =>
      match cloneWithSubstitution paramMap c, cloneWithSubstitution paramMap t with
      | some x, some y => some (.If p x y none)
      | _, _ => none
  | .If p c t (some e) =>
      match cloneWithSubstitution paramMap c, cloneWithSubstitution paramMap t,
            cloneWithSubstitution paramMap e with
      | some x, some y, some z => some (.If p x y (some z))
      | _, _, _ => none
  | .While p c b =>
      match cloneWithSubstitution paramMap c, cloneWithSubstitution paramMap b with
      | some x, some y => some (.While p x y)
      | _, _ => none
  | .ToDouble p c =>
      match cloneWithSubstitution paramMap c with
      | some x => some (.ToDouble p x)
      | none => none
  | .ToInt p c =>
      match cloneWithSubstitution paramMap c with
      | some x => some (.ToInt p x)
      | none => none
  | .ToString p c =>
      match cloneWithSubstitution paramMap c with
      | some x => some (.ToString p x)
      | none => none
  | .Indexing p b i =>
      match cloneWithSubstitution paramMap b, cloneWithSubstitution paramMap i with
      | some x, some y => some (.Indexing p x y)
      | _, _ => none
  | .Size p a =>
      match cloneWithSubstitution paramMap a with
      | some x => some (.Size p x)
      | none => none
  | _ => none
def cloneSubstStrict (paramMap : List (Nat × Option AST)) : List AST → Option (List AST)
  | [] => some []
  | c :: t =>
      match cloneWithSubstitution paramMap c, cloneSubstStrict paramMap t with
      | some c', some t' => some (c' :: t')
      | _, _ => none
def cloneSubstDrop (paramMap : List (Nat × Option AST)) : List AST → List AST
  | [] => []
  | c :: t =>
      match cloneWithSubstitution paramMap c with
      | some c' => c' :: cloneSubstDrop paramMap t
      | none => cloneSubstDrop paramMap t
end

mutual
/-- countVarUsage (lines 447-458): occurrences of the variable id in the
subtree. -/
def countVarUsage (varId : Nat) : AST → Nat
  | .Var _ v => if v = varId then 1 else 0
  | .Math1 _ _ c => countVarUsage varId c
  | .Math2 _ _ l r => countVarUsage varId l + countVarUsage varId r
  | .ToInt _ c => countVarUsage varId c
  | .ToDouble _ c => countVarUsage varId c
  | .ToString _ c => countVarUsage varId c
  | .Indexing _ b i => countVarUsage varId b + countVarUsage varId i
  | .Size _ a => countVarUsage varId a
  | .FunctionCall _ _ args => countVarUsageList varId args
  | .If _ c t none => countVarUsage varId c + countVarUsage varId t
  | .If _ c t (some e) =>
      countVarUsage varId c + countVarUsage varId t + countVarUsage varId e
  | .While _ c b => countVarUsage varId c + countVarUsage varId b
  | .Return _ e => countVarUsage varId e
  | .Block _ cs => countVarUsageList varId cs
  | .Function _ _ _ b => countVarUsage varId b
  | _ => 0
def countVarUsageList (varId : Nat) : List AST → Nat
  | [] => 0
  | c :: t => countVarUsage varId c + countVarUsageList varId t
end

mutual
/-- hasSideEffects (lines 428-444): a While node, an assignment Math2, a
Break, a Continue or a FunctionCall anywhere in the subtree. -/
def hasSideEffects : AST → Bool
  | .While _ _ _ => true
  | .Break _ => true
  | .Continue _ => true
  | .FunctionCall _ _ _ => true
  | .Math2 _ op l r =>
      if op = "=" then true else hasSideEffects l || hasSideEffects r
  | .Math1 _ _ c => hasSideEffects c
  | .ToInt _ c => hasSideEffects c
  | .ToDouble _ c => hasSideEffects c
  | .ToString _ c => hasSideEffects c
  | .Indexing _ b i => hasSideEffects b || hasSideEffects i
  | .Size _ a => hasSideEffects a
  | .If _ c t none => hasSideEffects c || hasSideEffects t
  | .If _ c t (some e) => hasSideEffects c || hasSideEffects t || hasSideEffects e
  | .Return _ e => hasSideEffects e
  | .Block _ cs => hasSideEffectsList cs
  | .Function _ _ _ b => hasSideEffects b
  | _ => false
def hasSideEffectsList : List AST → Bool
  | [] => false
  | c :: t => hasSideEffects c || hasSideEffectsList t
end

/-- The single-return extraction of shouldInlineFunction (lines 327-336) and
createInlinedExpression (lines 384-404): the body is either a block whose
only child is a Return, or directly a Return. -/
def extractReturn : AST → Option AST
  | .Block _ [.Return _ e] => some e
  | .Return _ e => some e
  | _ => none

/-- shouldInlineFunction (lines 312-367).  maxInlineNodes is the fixed
member value 40; the per-argument complexity bound is 3; the depth guard
compares the member currentDepth, which is 0 at every call site of this
predicate (it is only ever incremented inside createInlinedExpression, which
never calls back into it), against maxInlineDepth 3, so it never fires and
is omitted. -/
def shouldInlineFunction (functionMap : List (Nat × AST)) : AST → Bool
  | .FunctionCall _ funId args =>
      match lookupFun functionMap funId with
      | some (.Function _ _ paramIds fbody) =>
          if args.length ≠ paramIds.length then false
          else
            match extractReturn fbody with
            | none => false
            | some expr =>
                if expr.nodeCount > 40 then false
                else if hasSideEffects expr then false
                else
                  (List.range paramIds.length).all (fun i =>
                    if countVarUsage (paramIds.getD i 0) expr ≤ 1 then true
                    else
                      match args.get? i with
                      | some arg => !hasSideEffects arg && arg.nodeCount ≤ 3
                      | none => true)
      | _ => false
  | _ => false

/-- createParameterMap (lines 410-422): parameter ids paired with empty-map
clones of the call arguments, over the common prefix of both lists. -/
def createParameterMap (paramIds : List Nat) (args : List AST) :
    List (Nat × Option AST) :=
  (paramIds.zip args).map (fun e => (e.1, cloneEmptyMap e.2))

/-- createInlinedExpression (lines 369-408): re-extracts the single return
expression of the callee and clones it with the parameter substitution
map. -/
def createInlinedExpression (functionMap : List (Nat × AST)) : AST → Option AST
  | .FunctionCall _ funId args =>
      match lookupFun functionMap funId with
      | some (.Function _ _ paramIds fbody) =>
          match extractReturn fbody with
          | some expr =>
              cloneWithSubstitution (createParameterMap paramIds args) expr
          | none => none
      | _ => none
  | _ => none

mutual
/-- Whether a node is a FunctionCall (the dynamic_cast tests at lines 269
and 298). -/
def isFunctionCallNode : AST → Bool
  | .FunctionCall _ _ _ => true
  | _ => false

/-- One fuel level of inlineFunctionCalls (lines 242-310): the structural
walk over the tree.  An assignment Math2 whose right child is a call that
shouldInlineFunction accepts has that child replaced by the inlined
expression, and the walk then continues into both children, the freshly
inserted expression included - the source walks it with the same in-place
recursion, which the fuel models (callback deeper); a Return whose
expression is a call is either replaced (without walking the replacement)
or left entirely untouched; every other parent just recurses. -/
def inlineStep (functionMap : List (Nat × AST)) (deeper : AST → AST) : AST → AST
  | .Math2 p op l r =>
      if op = "=" ∧ isFunctionCallNode r ∧ shouldInlineFunction functionMap r then
        match createInlinedExpression functionMap r with
        | some inlined =>
            .Math2 p op (inlineStep functionMap deeper l) (deeper inlined)
        | none =>
            .Math2 p op (inlineStep functionMap deeper l) (inlineStep functionMap deeper r)
      else .Math2 p op (inlineStep functionMap deeper l) (inlineStep functionMap deeper r)
  | .Return p e =>
      if isFunctionCallNode e then
        if shouldInlineFunction functionMap e then
          match createInlinedExpression functionMap e with
          | some inlined => .Return p inlined
          | none => .Return p e
        else .Return p e
      else .Return p (inlineStep functionMap deeper e)
  | .Block p cs => .Block p (inlineStepList functionMap deeper cs)
  | .Math1 p op c => .Math1 p op (inlineStep functionMap deeper c)
  | .ToInt p c => .ToInt p (inlineStep functionMap deeper c)
  | .ToDouble p c => .ToDouble p (inlineStep functionMap deeper c)
  | .ToString p c => .ToString p (inlineStep functionMap deeper c)
  | .Indexing p b i =>
      .Indexing p (inlineStep functionMap deeper b) (inlineStep functionMap deeper i)
  | .Size p a => .Size p (inlineStep functionMap deeper a)
  | .FunctionCall p f args => .FunctionCall p f (inlineStepList functionMap deeper args)
  | .If p c t none =>
      .If p (inlineStep functionMap deeper c) (inlineStep functionMap deeper t) none
  | .If p c t (some e) =>
      .If p (inlineStep functionMap deeper c) (inlineStep functionMap deeper t)
        (some (inlineStep functionMap deeper e))
  | .While p c b =>
      .While p (inlineStep functionMap deeper c) (inlineStep functionMap deeper b)
  | .Function p f ps b => .Function p f ps (inlineStep functionMap deeper b)
  | n => n
def inlineStepList (functionMap : List (Nat × AST)) (deeper : AST → AST) :
    List AST → List AST
  | [] => []
  | c :: t => inlineStep functionMap deeper c :: inlineStepList functionMap deeper t
end

/-- inlineFunctionCalls (lines 242-262).  The source recurses in place into
an expression it has just inserted; that non-structural hop is modelled by
one unit of fuel, so with fuel at least the number of call nodes in the tree
the result equals the source's fixpoint (each successful inlining consumes
one call and duplicates none, every argument being substituted at most once
or call-free). -/
def inlineFunctionCalls (functionMap : List (Nat × AST)) : Nat → AST → AST
  | 0, t => t
  | fuel + 1, t => inlineStep functionMap (inlineFunctionCalls functionMap fuel) t

end Inlining

namespace CLI

/-- Which standard stream a diagnostic is written to. -/
inductive OutStream where
  | stdout
  | stderr
  deriving DecidableEq, Repr

/-- PassId (Tubular.cpp line 29). -/
inductive PassId where
  | Inline
  | Unroll
  | Tail
  deriving DecidableEq, Repr

/-- A diagnostic: the stream the source writes it to and (a shortening of)
the message text.  The quoted offending lexeme of the source messages is
left out. -/
structure Diag where
  stream : OutStream
  message : String
  deriving DecidableEq, Repr

/-- TrimCopy (Tubular.cpp lines 31-41): strip whitespace from both ends,
on the character list of the string. -/
def trimChars (s : List Char) : List Char :=
  ((s.dropWhile Char.isWhitespace).reverse.dropWhile Char.isWhitespace).reverse

/-- The std::getline-over-commas tokenization of ParsePassOrderSpec
(lines 45-47), as a split of the character list at commas.  getline yields
no final empty token after a trailing comma while this split does, but
ParsePassOrderSpec skips empty trimmed tokens either way. -/
def splitCommaAux : List Char → List Char → List (List Char)
  | [], acc => [acc.reverse]
  | c :: t, acc =>
      if c = ',' then acc.reverse :: splitCommaAux t []
      else splitCommaAux t (c :: acc)

/-- Split a character list at commas. -/
def splitComma (s : List Char) : List (List Char) := splitCommaAux s []

/-- One digit run of std::stoi. -/
def parseDigitsAux : List Char → Nat → Option Nat
  | [], acc => some acc
  | c :: t, acc =>
      if c.isDigit then parseDigitsAux t (acc * 10 + (c.toNat - '0'.toNat))
      else none

/-- Digit-run parse of a nonempty character list. -/
def parseDigits : List Char → Option Nat
  | [] => none
  | cs => parseDigitsAux cs 0

/-- Stand-in for std::stoi on the unroll-factor string: optional sign then
digits.  The source also tolerates trailing non-digits (stoi parses the
longest integer prefix); no theorem depends on such inputs. -/
def parseIntChars : List Char → Option Int
  | '-' :: t => (parseDigits t).map (fun n => -(n : Int))
  | '+' :: t => (parseDigits t).map (fun n => (n : Int))
  | cs => (parseDigits cs).map (fun n => (n : Int))

/-- ParsePassOrderSpec token loop (Tubular.cpp lines 43-84).  Each token is
trimmed and lowercased; empty tokens are skipped; an unknown or duplicate
pass name is a diagnostic on std::cout followed by exit(1); at the end
exactly three passes must have been named. -/
def parsePassOrderAux : List (List Char) → List PassId → Except Diag (List PassId)
  | [], order =>
      if order.length ≠ 3 then
        .error ⟨.stdout, "Error: --pass-order must specify inline, unroll, and tail exactly once."⟩
      else .ok order
  | token :: rest, order =>
      if trimChars token = [] then parsePassOrderAux rest order
      else
        match
          (if (trimChars token).map Char.toLower = "inline".data then some PassId.Inline
           else if (trimChars token).map Char.toLower = "unroll".data then some PassId.Unroll
           else if (trimChars token).map Char.toLower = "tail".data then some PassId.Tail
           else none) with
        | none => .error ⟨.stdout, "Error: Unknown pass in --pass-order (expected inline, unroll, tail)."⟩
        | some passId =>
            if passId ∈ order then .error ⟨.stdout, "Error: Duplicate pass in --pass-order."⟩
            else parsePassOrderAux rest (order ++ [passId])

/-- ParsePassOrderSpec (lines 43-84). -/
def parsePassOrderSpec (spec : String) : Except Diag (List PassId) :=
  parsePassOrderAux (splitComma spec.data) []

/-- The mutable configuration of main (Tubular.cpp lines 872-881). -/
structure Config where
  enableLoopUnrolling : Bool
  unrollFactor : Int
  enableFunctionInlining : Bool
  enableTailLoopify : Bool
  passOrder : List PassId
  seenNoUnroll : Bool
  seenUnrollFactor : Bool
  seenTail : Bool
  deriving Repr

/-- The defaults of main (lines 872-881). -/
def Config.initial : Config :=
  { enableLoopUnrolling := true, unrollFactor := 4,
    enableFunctionInlining := true, enableTailLoopify := true,
    passOrder := [.Inline, .Unroll, .Tail],
    seenNoUnroll := false, seenUnrollFactor := false, seenTail := false }

/-- The flag loop of main (lines 884-942) over argv[2..].  Every diagnostic
it emits goes to std::cout.  rfind-prefix tests of the source are character
prefix tests here; substr offsets count characters (the flags are ASCII). -/
def parseFlagsAux : List String → Config → Except Diag Config
  | [], c => .ok c
  | flag :: rest, c =>
      if flag = "--no-unroll" then
        parseFlagsAux rest { c with enableLoopUnrolling := false, seenNoUnroll := true }
      else if flag = "--no-inline" then
        parseFlagsAux rest { c with enableFunctionInlining := false }
      else if flag.data.take 16 = "--unroll-factor=".data then
        if c.seenUnrollFactor then
          .error ⟨.stdout, "Error: Duplicate --unroll-factor specified"⟩
        else
          match parseIntChars (flag.data.drop 16) with
          | none => .error ⟨.stdout, "Error: Invalid unroll factor"⟩
          | some n =>
              if n < 1 ∨ n > 16 then
                .error ⟨.stdout, "Error: Unroll factor must be between 1 and 16"⟩
              else
                parseFlagsAux rest { c with
                  unrollFactor := n,
                  enableLoopUnrolling := if n = 1 then false else c.enableLoopUnrolling,
                  seenUnrollFactor := true }
      else if flag.data.take 7 = "--tail=".data then
        if flag.data.drop 7 = "loop".data then
          if c.seenTail ∧ c.enableTailLoopify = false then
            .error ⟨.stdout, "Error: Conflicting --tail options: both off and loop specified"⟩
          else parseFlagsAux rest { c with enableTailLoopify := true, seenTail := true }
        else if flag.data.drop 7 = "off".data then
          if c.seenTail ∧ c.enableTailLoopify = true then
            .error ⟨.stdout, "Error: Conflicting --tail options: both loop and off specified"⟩
          else parseFlagsAux rest { c with enableTailLoopify := false, seenTail := true }
        else .error ⟨.stdout, "Error: Unknown tail mode (use loop|off)"⟩
      else if flag.data.take 13 = "--pass-order=".data then
        if flag.data.drop 13 = [] then
          .error ⟨.stdout, "Error: --pass-order requires a comma-separated permutation of inline,unroll,tail"⟩
        else
          match parsePassOrderAux (splitComma (flag.data.drop 13)) [] with
          | .error d => .error d
          | .ok order => parseFlagsAux rest { c with passOrder := order }
      else .error ⟨.stdout, "Error: Unknown flag"⟩

/-- main flag handling including the post-loop validation (lines 884-949):
the loop over argv[2..] followed by the --no-unroll / --unroll-factor
combination check, whose diagnostic also goes to std::cout. -/
def parseFlags (flags : List String) : Except Diag Config :=
  match parseFlagsAux flags Config.initial with
  | .error d => .error d
  | .ok c =>
      if c.seenNoUnroll ∧ c.seenUnrollFactor ∧ c.unrollFactor > 1 then
        .error ⟨.stdout, "Error: Cannot combine --no-unroll with --unroll-factor"⟩
      else .ok c

/-- The only stderr diagnostic of Tubular.cpp: the constructor reports a
file it cannot open on std::cerr (line 151) and exits. -/
def fileOpenDiag : Diag := ⟨.stderr, "ERROR: Unable to open file."⟩

/-- The missing-input-file diagnostic of main (line 859), written to
std::cout. -/
def noInputDiag : Diag := ⟨.stdout, "Error: No input file specified"⟩

end CLI

namespace TailRec

/-- Number of in-neighbours of v among the sources listed in l. -/
def inNbrCount (adj : Nat → List Nat) (l : List Nat) (v : Nat) : Nat :=
  l.countP (fun u => decide (v ∈ adj u))

/-- The dependency graph contains a cycle: a nonempty set of indices, all of
them graph nodes, each of which has an in-neighbour inside the set.  The
vertex list of any directed cycle is such a set, and conversely any finite
such set contains a directed cycle. -/
def HasInCycle (adj : Nat → List Nat) (nodes : List Nat) : Prop :=
  ∃ C : List Nat, C ≠ [] ∧ (∀ v ∈ C, v ∈ nodes) ∧ ∀ v ∈ C, ∃ w ∈ C, v ∈ adj w

/-- Shape facts about the graph the tail-call rewrite builds: distinct
nodes, duplicate-free adjacency lists whose targets are nodes, and no self
edges. -/
structure GraphOK (adj : Nat → List Nat) (nodes : List Nat) : Prop where
  nodesNodup : nodes.Nodup
  adjNodup : ∀ u, (adj u).Nodup
  adjSub : ∀ u, ∀ v ∈ adj u, v ∈ nodes
  noSelf : ∀ u, u ∉ adj u

/-- Invariant of the Kahn queue loop: the processed order and the queue are
disjoint duplicate-free node lists, the in-degree of every vertex counts its
in-edges from not-yet-processed sources, and every vertex that has reached
the order or the queue has all its in-neighbours already processed. -/
structure KahnInv (adj : Nat → List Nat) (nodes : List Nat) (q : List Nat)
    (indeg : Nat → Int) (order : List Nat) : Prop where
  nodupOQ : (order ++ q).Nodup
  memOQ : ∀ v ∈ order ++ q, v ∈ nodes
  indegF : ∀ v, indeg v = (inNbrCount adj nodes v : Int) - (inNbrCount adj order v : Int)
  ready : ∀ v ∈ order ++ q, ∀ u, u ∈ nodes → v ∈ adj u → u ∈ order

end TailRec

/-!
Concrete inputs used by the counterexamples and witnesses below.
-/

/-- A counted loop whose body holds an If statement besides the increment:
while (v5 < 10) { if (v5 < 3) { v6 = 1; } v5 = v5 + 1; }. -/
def exLoopWithIf : AST :=
  .While 0 (.Math2 1 "<" (.Var 2 5) (.IntLit 3 10))
    (.Block 4
      [.If 5 (.Math2 6 "<" (.Var 7 5) (.IntLit 8 3))
         (.Block 9 [.Math2 10 "=" (.Var 11 6) (.IntLit 12 1)]) none,
       .Math2 13 "=" (.Var 14 5) (.Math2 15 "+" (.Var 16 5) (.IntLit 17 1))])

/-- The main loop the unroller builds for exLoopWithIf at factor 2: the If
statement is gone from every unrolled copy. -/
def exLoopWithIfMain : AST :=
  .While 0 (.Math2 1 "<" (.Var 2 5) (.Math2 1 "-" (.IntLit 3 10) (.IntLit 1 1)))
    (.Block 4 [.Math2 13 "=" (.Var 14 5) (.Math2 13 "+" (.Var 14 5) (.IntLit 13 2))])

/-- The remainder loop the unroller builds for exLoopWithIf: the If
statement is gone from the body clone. -/
def exLoopWithIfRemainder : AST :=
  .While 0 (.Math2 1 "<" (.Var 2 5) (.IntLit 3 10))
    (.Block 4 [.Math2 13 "=" (.Var 14 5) (.Math2 15 "+" (.Var 16 5) (.IntLit 17 1))])

/-- A loop with a != predicate and step 2:
while (v1 != 10) { v1 = v1 + 2; }. -/
def exLoopNeqStep2 : AST :=
  .While 0 (.Math2 1 "!=" (.Var 2 1) (.IntLit 3 10))
    (.Block 4 [.Math2 5 "=" (.Var 6 1) (.Math2 7 "+" (.Var 8 1) (.IntLit 9 2))])

/-- The block the unroller substitutes for exLoopNeqStep2 at factor 2 (the
condition is passed through unadjusted, the combined step is 4). -/
def exLoopNeqStep2Unrolled : AST :=
  .Block 0
    [.While 0 (.Math2 1 "!=" (.Var 2 1) (.IntLit 3 10))
       (.Block 4 [.Math2 5 "=" (.Var 6 1) (.Math2 5 "+" (.Var 6 1) (.IntLit 5 4))]),
     .While 0 (.Math2 1 "!=" (.Var 2 1) (.IntLit 3 10))
       (.Block 4 [.Math2 5 "=" (.Var 6 1) (.Math2 7 "+" (.Var 8 1) (.IntLit 9 2))])]

/-- A clonable counted loop (spec scenario 2): the body accumulates into v2
and then increments v1: while (v1 < 10) { v2 = v2 + v1; v1 = v1 + 1; }. -/
def exCountedLoop : AST :=
  .While 0 (.Math2 1 "<" (.Var 2 1) (.IntLit 3 10))
    (.Block 4
      [.Math2 5 "=" (.Var 6 2) (.Math2 7 "+" (.Var 8 2) (.Var 9 1)),
       .Math2 10 "=" (.Var 11 1) (.Math2 12 "+" (.Var 13 1) (.IntLit 14 1))])

/-- Arguments of the gcd-style tail call return gcd(b, a % b) of a function
with parameters a = var 1, b = var 2 (spec scenario 4 shape). -/
def exGcdArgs : List AST := [.Var 20 2, .Math2 21 "%" (.Var 22 1) (.Var 23 2)]

/-- The gcd-style tail return itself, inside function id 9. -/
def exGcdReturn : AST := .Return 30 (.FunctionCall 31 9 exGcdArgs)

/-- Body of a tail-recursive function (id 9, parameter var 3) that returns
the char literal 97 in its base case:
{ if (v3 == 0) { return (char) 97; } return f(v3 - 1); }. -/
def exCharBody : AST :=
  .Block 40
    [.If 41 (.Math2 42 "==" (.Var 43 3) (.IntLit 44 0))
       (.Block 45 [.Return 46 (.CharLit 47 97)]) none,
     .Return 48 (.FunctionCall 49 9 [.Math2 50 "-" (.Var 51 3) (.IntLit 52 1)])]

/-- What transformForTailCalls makes of exCharBody: the tail call becomes a
reassignment plus continue, and the base-case char literal 97 comes back as
the char literal 1. -/
def exCharBodyTransformed : AST :=
  .Block 40
    [.If 41 (.Math2 42 "==" (.Var 43 3) (.IntLit 44 0))
       (.Block 45 [.Return 46 (.CharLit 47 1)]) none,
     .Block 48
       [.Math2 48 "=" (.Var 48 3) (.Math2 50 "-" (.Var 51 3) (.IntLit 52 1)),
        .Continue 48]]

/-- A function map with one callee: function id 7, no parameters, body
{ return 7; }. -/
def exFunMapConst : List (Nat × AST) :=
  [(7, .Function 100 7 [] (.Block 101 [.Return 102 (.IntLit 103 7)]))]

/-- An assignment whose right side uses a call to function 7 as an operand
of an addition: v1 = f7() + 1. -/
def exAssignCallOperand : AST :=
  .Math2 110 "=" (.Var 111 1) (.Math2 112 "+" (.FunctionCall 113 7 []) (.IntLit 114 1))

/-- A function map with two functions: function 7 ignores its parameter
(var 4) and returns 5; function 8 takes no parameters and returns a call to
function 7 with the constant 1 (so calls to 8 are side-effecting). -/
def exFunMapDropArg : List (Nat × AST) :=
  [(7, .Function 100 7 [4] (.Block 101 [.Return 102 (.IntLit 103 5)])),
   (8, .Function 104 8 [] (.Block 105 [.Return 106 (.FunctionCall 107 7 [.IntLit 108 1])]))]

/-- return f7(f8()): the side-effecting call f8() is the argument of a call
to the parameter-dropping function 7. -/
def exReturnDropArg : AST :=
  .Return 120 (.FunctionCall 121 7 [.FunctionCall 122 8 []])

/-- A function map with one directly recursive single-return function:
function id 4, parameter var 2, body { return f4(v2); }. -/
def exFunMapRecursive : List (Nat × AST) :=
  [(4, .Function 130 4 [2] (.Block 131 [.Return 132 (.FunctionCall 133 4 [.Var 134 2])]))]

/-!
Helper lemmas.
-/

mutual
theorem LoopUnroll.cloneNode_of_clonable :
    ∀ t : AST, LoopUnroll.clonable t = true → LoopUnroll.cloneNode t = some t
  | .Math2 p op l r, h => by
      simp [LoopUnroll.clonable] at h
      simp [LoopUnroll.cloneNode, LoopUnroll.cloneNode_of_clonable l h.1,
        LoopUnroll.cloneNode_of_clonable r h.2]
  | .Var _ _, _ => rfl
  | .IntLit _ _, _ => rfl
  | .Block p cs, h => by
      simp [LoopUnroll.clonable] at h
      simp [LoopUnroll.cloneNode, LoopUnroll.cloneListDrop_of_clonableList cs h]
theorem LoopUnroll.cloneListDrop_of_clonableList :
    ∀ ts : List AST, LoopUnroll.clonableList ts = true → LoopUnroll.cloneListDrop ts = ts
  | [], _ => rfl
  | c :: t, h => by
      simp [LoopUnroll.clonableList] at h
      simp [LoopUnroll.cloneListDrop, LoopUnroll.cloneNode_of_clonable c h.1,
        LoopUnroll.cloneListDrop_of_clonableList t h.2]
end

mutual
theorem TailRec.clone_of_clonable :
    ∀ t : AST, TailRec.clonable t = true → TailRec.clone t = some t
  | .Block p cs, h => by
      simp [TailRec.clonable] at h
      simp [TailRec.clone, TailRec.cloneDropList_of_clonableList cs h]
  | .While p c b, h => by
      simp [TailRec.clonable] at h
      simp [TailRec.clone, TailRec.clone_of_clonable c h.1, TailRec.clone_of_clonable b h.2]
  | .If p c t none, h => by
      simp [TailRec.clonable] at h
      simp [TailRec.clone, TailRec.clone_of_clonable c h.1, TailRec.clone_of_clonable t h.2]
  | .If p c t (some e), h => by
      simp [TailRec.clonable] at h
      simp [TailRec.clone, TailRec.clone_of_clonable c h.1.1,
        TailRec.clone_of_clonable t h.1.2, TailRec.clone_of_clonable e h.2]
  | .Return p e, h => by
      simp [TailRec.clonable] at h
      simp [TailRec.clone, TailRec.clone_of_clonable e h]
  | .Math2 p op l r, h => by
      simp [TailRec.clonable] at h
      simp [TailRec.clone, TailRec.clone_of_clonable l h.1, TailRec.clone_of_clonable r h.2]
  | .Math1 p op c, h => by
      simp [TailRec.clonable] at h
      simp [TailRec.clone, TailRec.clone_of_clonable c h]
  | .Var _ _, _ => rfl
  | .IntLit _ _, _ => rfl
  | .FloatLit _ _, _ => rfl
  | .StringLit _ _, _ => rfl
  | .FunctionCall p f args, h => by
      simp [TailRec.clonable] at h
      simp [TailRec.clone, TailRec.cloneDropList_of_clonableList args h]
  | .Indexing p b i, h => by
      simp [TailRec.clonable] at h
      simp [TailRec.clone, TailRec.clone_of_clonable b h.1, TailRec.clone_of_clonable i h.2]
  | .Size p a, h => by
      simp [TailRec.clonable] at h
      simp [TailRec.clone, TailRec.clone_of_clonable a h]
  | .Break _, _ => rfl
  | .Continue _, _ => rfl
theorem TailRec.cloneDropList_of_clonableList :
    ∀ ts : List AST, TailRec.clonableList ts = true → TailRec.cloneDropList ts = ts
  | [], _ => rfl
  | c :: t, h => by
      simp [TailRec.clonableList] at h
      simp [TailRec.cloneDropList, TailRec.clone_of_clonable c h.1,
        TailRec.cloneDropList_of_clonableList t h.2]
end

mutual
theorem Inlining.hasSideEffects_of_containsCall :
    ∀ t : AST, AST.containsCall t = true → Inlining.hasSideEffects t = true
  | .FunctionCall _ _ _, _ => rfl
  | .Math1 _ _ c, h => by
      simp [AST.containsCall] at h
      simp [Inlining.hasSideEffects, Inlining.hasSideEffects_of_containsCall c h]
  | .Math2 _ op l r, h => by
      simp [AST.containsCall] at h
      rcases h with h | h
      · simp [Inlining.hasSideEffects, Inlining.hasSideEffects_of_containsCall l h]
      · simp [Inlining.hasSideEffects, Inlining.hasSideEffects_of_containsCall r h]
  | .ToInt _ c, h => by
      simp [AST.containsCall] at h
      simp [Inlining.hasSideEffects, Inlining.hasSideEffects_of_containsCall c h]
  | .ToDouble _ c, h => by
      simp [AST.containsCall] at h
      simp [Inlining.hasSideEffects, Inlining.hasSideEffects_of_containsCall c h]
  | .ToString _ c, h => by
      simp [AST.containsCall] at h
      simp [Inlining.hasSideEffects, Inlining.hasSideEffects_of_containsCall c h]
  | .Indexing _ b i, h => by
      simp [AST.containsCall] at h
      rcases h with h | h
      · simp [Inlining.hasSideEffects, Inlining.hasSideEffects_of_containsCall b h]
      · simp [Inlining.hasSideEffects, Inlining.hasSideEffects_of_containsCall i h]
  | .Size _ a, h => by
      simp [AST.containsCall] at h
      simp [Inlining.hasSideEffects, Inlining.hasSideEffects_of_containsCall a h]
  | .If _ c t none, h => by
      simp [AST.containsCall] at h
      rcases h with h | h
      · simp [Inlining.hasSideEffects, Inlining.hasSideEffects_of_containsCall c h]
      · simp [Inlining.hasSideEffects, Inlining.hasSideEffects_of_containsCall t h]
  | .If _ c t (some e), h => by
      simp [AST.containsCall] at h
      rcases h with (h | h) | h
      · simp [Inlining.hasSideEffects, Inlining.hasSideEffects_of_containsCall c h]
      · simp [Inlining.hasSideEffects, Inlining.hasSideEffects_of_containsCall t h]
      · simp [Inlining.hasSideEffects, Inlining.hasSideEffects_of_containsCall e h]
  | .While _ _ _, _ => rfl
  | .Return _ e, h => by
      simp [AST.containsCall] at h
      simp [Inlining.hasSideEffects, Inlining.hasSideEffects_of_containsCall e h]
  | .Block _ cs, h => by
      simp [AST.containsCall] at h
      simp [Inlining.hasSideEffects, Inlining.hasSideEffectsList_of_containsCallList cs h]
  | .Function _ _ _ b, h => by
      simp [AST.containsCall] at h
      simp [Inlining.hasSideEffects, Inlining.hasSideEffects_of_containsCall b h]
theorem Inlining.hasSideEffectsList_of_containsCallList :
    ∀ ts : List AST, AST.containsCallList ts = true → Inlining.hasSideEffectsList ts = true
  | c :: t, h => by
      simp [AST.containsCallList] at h
      rcases h with h | h
      · simp [Inlining.hasSideEffectsList, Inlining.hasSideEffects_of_containsCall c h]
      · simp [Inlining.hasSideEffectsList, Inlining.hasSideEffectsList_of_containsCallList t h]
end

/-!
Claim theorems.
-/

/-- C1 counterexample: for the unrolling candidate exLoopWithIf, whose body
holds an If statement the pass-local cloner cannot copy, the pass still
replaces the loop; the replacement block's second child is not structurally
equal to the original While (the If is silently dropped), and the original
While is not kept although clones failed during the rewrite. -/
theorem c1_unroll_if_dropped :
    LoopUnroll.unrollWhileStatement 2 exLoopWithIf =
      some (.Block 0 [exLoopWithIfMain, exLoopWithIfRemainder]) ∧
    exLoopWithIfRemainder ≠ exLoopWithIf :=
  ⟨rfl, fun h => absurd (congrArg AST.nodeCount h) (by decide)⟩

/-- C2 counterexample: the loop while (v1 != 10) { v1 = v1 + 2; } has a !=
predicate and step 2, yet the analyzer marks it unrollable and the pass
rewrites it. -/
theorem c2_neq_step2_rewritten :
    (LoopUnroll.analyzeLoop exLoopNeqStep2).isUnrollable = true ∧
    (LoopUnroll.analyzeLoop exLoopNeqStep2).comparison = "!=" ∧
    (LoopUnroll.analyzeLoop exLoopNeqStep2).increment = 2 ∧
    LoopUnroll.unrollWhileStatement 2 exLoopNeqStep2 = some exLoopNeqStep2Unrolled :=
  ⟨rfl, rfl, rfl, rfl⟩

/-- C3: loopifying the function with body exCharBody alters a node that is
not a tail self-call Return: the base-case char literal 97 is cloned into
the transformed body as the char literal 1. -/
theorem c3_char_literal_altered :
    TailRec.transformForTailCalls 9 [3] exCharBody = some exCharBodyTransformed ∧
    exCharBodyTransformed ≠ exCharBody := by
  refine ⟨rfl, fun h => ?_⟩
  have := congrArg AST.nodeCount h
  simp [exCharBodyTransformed, exCharBody, AST.nodeCount, AST.nodeCountList] at this

/-- C8: the TailRecursionPass cloner is not structure-preserving on char
literals: cloning the char literal 97 yields the char literal 1 (the source
stores the bool "type name is nonempty" cast to int as the value), so the
clone is not structurally equal to the node. -/
theorem c8_tail_cloner_charlit :
    TailRec.clone (.CharLit 5 97) = some (.CharLit 5 1) ∧
    AST.CharLit 5 1 ≠ AST.CharLit 5 97 :=
  ⟨rfl, by simp⟩

/-- C4 counterexample: the call to function 7 is inlineable (its inlined
form is the literal 7), but sitting as an operand of an addition on the
right side of an assignment it is never substituted: the pass returns the
tree unchanged, call intact. -/
theorem c4_operand_call_not_inlined :
    Inlining.shouldInlineFunction exFunMapConst (.FunctionCall 113 7 []) = true ∧
    Inlining.createInlinedExpression exFunMapConst (.FunctionCall 113 7 []) =
      some (.IntLit 103 7) ∧
    Inlining.inlineFunctionCalls exFunMapConst 3 exAssignCallOperand = exAssignCallOperand ∧
    AST.containsCall (Inlining.inlineFunctionCalls exFunMapConst 3 exAssignCallOperand) = true :=
  ⟨rfl, rfl, rfl, rfl⟩

/-- C5 counterexample: function 7 never reads its parameter, and the
argument f8() is a call (side-effecting); the claim demands the inlining be
skipped, but shouldInlineFunction accepts it and the pass rewrites
return f7(f8()) into return 5, dropping the call f8() entirely. -/
theorem c5_dropped_call_argument :
    Inlining.hasSideEffects (.FunctionCall 122 8 []) = true ∧
    Inlining.shouldInlineFunction exFunMapDropArg (.FunctionCall 121 7 [.FunctionCall 122 8 []]) = true ∧
    Inlining.inlineFunctionCalls exFunMapDropArg 3 exReturnDropArg = .Return 120 (.IntLit 103 5) :=
  ⟨rfl, rfl, rfl⟩

/-- C10 (confirmed): whenever the single return expression of a callee
contains a function call anywhere inside it, hasSideEffects holds for it and
shouldInlineFunction rejects every call to that callee, so no call site of
that callee is ever substituted; a directly recursive single-return function
is the special case where the inner call is the self call. -/
theorem c10_call_in_return_blocks_inlining :
    ∀ (functionMap : List (Nat × AST)) (p funId : Nat) (args : List AST)
      (pf fid2 : Nat) (params : List Nat) (fbody expr : AST),
      Inlining.lookupFun functionMap funId = some (.Function pf fid2 params fbody) →
      Inlining.extractReturn fbody = some expr →
      AST.containsCall expr = true →
      Inlining.shouldInlineFunction functionMap (.FunctionCall p funId args) = false := by
  intro functionMap p funId args pf fid2 params fbody expr hlook hext hcall
  have hse := Inlining.hasSideEffects_of_containsCall expr hcall
  simp only [Inlining.shouldInlineFunction, hlook, hext]
  by_cases hlen : args.length = params.length
  · simp [hlen, hse]
  · simp [hlen]

/-- C10 witness: the recursive identity-style function 4 with body
{ return f4(v2); } is never inlined at the call f4(41). -/
theorem c10_call_in_return_blocks_inlining_witness :
    Inlining.shouldInlineFunction exFunMapRecursive
      (.FunctionCall 140 4 [.IntLit 141 41]) = false :=
  c10_call_in_return_blocks_inlining exFunMapRecursive 140 4 [.IntLit 141 41]
    130 4 [2] (.Block 131 [.Return 132 (.FunctionCall 133 4 [.Var 134 2])])
    (.FunctionCall 133 4 [.Var 134 2]) rfl rfl rfl

theorem CLI.parsePassOrderAux_error_stdout :
    ∀ (toks : List (List Char)) (order : List CLI.PassId) (d : CLI.Diag),
      CLI.parsePassOrderAux toks order = .error d → d.stream = .stdout := by
  intro toks
  induction toks with
  | nil =>
      intro order d h
      unfold CLI.parsePassOrderAux at h
      split at h
      · injection h with h
        rw [← h]
      · cases h
  | cons tok rest ih =>
      intro order d h
      unfold CLI.parsePassOrderAux at h
      split at h
      · exact ih order d h
      · split at h
        · injection h with h
          rw [← h]
        · split at h
          · injection h with h
            rw [← h]
          · exact ih _ d h

theorem CLI.parseFlagsAux_error_stdout :
    ∀ (flags : List String) (c : CLI.Config) (d : CLI.Diag),
      CLI.parseFlagsAux flags c = .error d → d.stream = .stdout := by
  intro flags
  induction flags with
  | nil => intro c d h; cases h
  | cons flag rest ih =>
      intro c d h
      unfold CLI.parseFlagsAux at h
      split at h
      · exact ih _ d h
      · split at h
        · exact ih _ d h
        · split at h
          · split at h
            · injection h with h; rw [← h]
            · split at h
              · injection h with h; rw [← h]
              · split at h
                · injection h with h; rw [← h]
                · exact ih _ d h
          · split at h
            · split at h
              · split at h
                · injection h with h; rw [← h]
                · exact ih _ d h
              · split at h
                · split at h
                  · injection h with h; rw [← h]
                  · exact ih _ d h
                · injection h with h; rw [← h]
            · split at h
              · split at h
                · injection h with h; rw [← h]
                · split at h
                  · rename_i d0 heq
                    injection h with h
                    exact CLI.parsePassOrderAux_error_stdout _ _ d0 heq ▸ (h ▸ rfl)
                  · exact ih _ d h
              · injection h with h; rw [← h]

/-- C9 counterexample: the unknown-flag diagnostic of main is written to
std::cout, not std::cerr. -/
theorem c9_unknown_flag_on_stdout :
    CLI.parseFlags ["--bogus"] = .error ⟨.stdout, "Error: Unknown flag"⟩ ∧
    CLI.OutStream.stdout ≠ CLI.OutStream.stderr :=
  ⟨rfl, by decide⟩

/-- C9 amended: every configuration diagnostic of the flag loop and of
ParsePassOrderSpec (unknown flag, unroll factor out of range or duplicated
or invalid, tail conflicts, unknown or duplicate or missing --pass-order
name, the --no-unroll / --unroll-factor combination) is written to stdout;
of the startup diagnostics only the unable-to-open-file error goes to
stderr. -/
theorem c9_config_errors_on_stdout :
    (∀ (flags : List String) (d : CLI.Diag),
      CLI.parseFlags flags = .error d → d.stream = .stdout) ∧
    (∀ (spec : String) (d : CLI.Diag),
      CLI.parsePassOrderSpec spec = .error d → d.stream = .stdout) ∧
    CLI.noInputDiag.stream = .stdout ∧
    CLI.fileOpenDiag.stream = .stderr := by
  refine ⟨?_, ?_, rfl, rfl⟩
  · intro flags d h
    unfold CLI.parseFlags at h
    split at h
    · rename_i d0 heq
      injection h with h
      exact CLI.parseFlagsAux_error_stdout flags CLI.Config.initial d0 heq ▸ (h ▸ rfl)
    · split at h
      · injection h with h; rw [← h]
      · cases h
  · intro spec d h
    exact CLI.parsePassOrderAux_error_stdout _ _ _ h

/-- C9 amended witness: at the concrete bad configurations
[--unroll-factor=99] and pass order "inline,inline,tail" the theorem applies
and both diagnostics indeed name stdout. -/
theorem c9_config_errors_on_stdout_witness :
    (CLI.parseFlags ["--unroll-factor=99"] =
      .error ⟨.stdout, "Error: Unroll factor must be between 1 and 16"⟩) ∧
    CLI.parsePassOrderSpec "inline,inline,tail" =
      .error ⟨.stdout, "Error: Duplicate pass in --pass-order."⟩ ∧
    (⟨.stdout, "Error: Unroll factor must be between 1 and 16"⟩ : CLI.Diag).stream = .stdout ∧
    (⟨.stdout, "Error: Duplicate pass in --pass-order."⟩ : CLI.Diag).stream = .stdout :=
  ⟨rfl, rfl,
    c9_config_errors_on_stdout.1 ["--unroll-factor=99"] _ rfl,
    c9_config_errors_on_stdout.2.1 "inline,inline,tail" _ rfl⟩

/-- C4 amended: a FunctionCall child whose callee passes shouldInlineFunction
is substituted by the callee's parameter-substituted return expression
exactly when it is the direct right-hand side of an assignment (after which
the walk continues into the inserted expression) or the direct expression of
a Return (which is not walked further); calls in any other position are not
substituted (the counterexample shows an inlineable call operand surviving
the pass). -/
theorem c4_inlining_positions :
    ∀ (fm : List (Nat × AST)) (fuel p pr : Nat) (l c e : AST),
      Inlining.isFunctionCallNode c = true →
      Inlining.shouldInlineFunction fm c = true →
      Inlining.createInlinedExpression fm c = some e →
      Inlining.inlineFunctionCalls fm (fuel + 1) (.Math2 p "=" l c) =
        .Math2 p "=" (Inlining.inlineFunctionCalls fm (fuel + 1) l)
          (Inlining.inlineFunctionCalls fm fuel e) ∧
      Inlining.inlineFunctionCalls fm (fuel + 1) (.Return pr c) = .Return pr e := by
  intro fm fuel p pr l c e hcall hshould hcreate
  constructor
  · show Inlining.inlineStep fm (Inlining.inlineFunctionCalls fm fuel) (.Math2 p "=" l c) = _
    simp only [Inlining.inlineStep, hcall, hshould, hcreate, and_true, true_and, if_true,
      if_pos trivial]
    rfl
  · show Inlining.inlineStep fm (Inlining.inlineFunctionCalls fm fuel) (.Return pr c) = _
    simp [Inlining.inlineStep, hcall, hshould, hcreate]

/-- C4 amended witness: with the constant callee of exFunMapConst, the
assignment v1 = f7() and the return return f7() both have the call
substituted by the literal 7. -/
theorem c4_inlining_positions_witness :
    Inlining.isFunctionCallNode (.FunctionCall 113 7 []) = true ∧
    Inlining.shouldInlineFunction exFunMapConst (.FunctionCall 113 7 []) = true ∧
    Inlining.createInlinedExpression exFunMapConst (.FunctionCall 113 7 []) =
      some (.IntLit 103 7) ∧
    Inlining.inlineFunctionCalls exFunMapConst 1
        (.Math2 110 "=" (.Var 111 1) (.FunctionCall 113 7 [])) =
      .Math2 110 "=" (Inlining.inlineFunctionCalls exFunMapConst 1 (.Var 111 1))
        (Inlining.inlineFunctionCalls exFunMapConst 0 (.IntLit 103 7)) ∧
    Inlining.inlineFunctionCalls exFunMapConst 1 (.Return 150 (.FunctionCall 113 7 [])) =
      .Return 150 (.IntLit 103 7) :=
  ⟨rfl, rfl, rfl,
    (c4_inlining_positions exFunMapConst 0 110 150 (.Var 111 1) (.FunctionCall 113 7 [])
      (.IntLit 103 7) rfl rfl rfl).1,
    (c4_inlining_positions exFunMapConst 0 110 150 (.Var 111 1) (.FunctionCall 113 7 [])
      (.IntLit 103 7) rfl rfl rfl).2⟩

/-- C5 amended: a call is accepted for inlining exactly when the callee is
in the map with matching arity and a single-return body whose expression has
at most 40 nodes and no side effects, and every parameter either occurs at
most once in that expression (a parameter occurring zero times is accepted
even when the corresponding argument is a side-effecting call, which the
rewrite then drops) or, when it occurs more than once, the corresponding
argument is side-effect-free and has at most 3 nodes. -/
theorem c5_inline_criterion :
    ∀ (fm : List (Nat × AST)) (p fid : Nat) (args : List AST)
      (pf fid2 : Nat) (params : List Nat) (fbody : AST),
      Inlining.lookupFun fm fid = some (.Function pf fid2 params fbody) →
      (Inlining.shouldInlineFunction fm (.FunctionCall p fid args) = true ↔
        args.length = params.length ∧
        ∃ expr, Inlining.extractReturn fbody = some expr ∧
          expr.nodeCount ≤ 40 ∧
          Inlining.hasSideEffects expr = false ∧
          ∀ i < params.length,
            Inlining.countVarUsage (params.getD i 0) expr ≤ 1 ∨
            ∃ arg, args.get? i = some arg ∧
              Inlining.hasSideEffects arg = false ∧ arg.nodeCount ≤ 3) := by
  intro fm p fid args pf fid2 params fbody hlook
  simp only [Inlining.shouldInlineFunction, hlook]
  by_cases hlen : args.length = params.length
  · simp only [hlen, ne_eq, not_true_eq_false, if_false, true_and]
    cases hext : Inlining.extractReturn fbody with
    | none => simp
    | some expr =>
        simp only [Option.some.injEq]
        by_cases hcnt : expr.nodeCount > 40
        · simp only [hcnt, if_true]
          constructor
          · intro h; cases h
          · rintro ⟨e, he, hle, _⟩
            subst he
            omega
        · simp only [if_neg hcnt]
          by_cases hse : Inlining.hasSideEffects expr = true
          · simp only [hse, if_true]
            constructor
            · intro h; cases h
            · rintro ⟨e, he, _, hsef, _⟩
              subst he
              simp [hsef] at hse
          · rw [Bool.not_eq_true] at hse
            simp only [hse, Bool.false_eq_true, if_false, List.all_eq_true, List.mem_range]
            constructor
            · intro h
              refine ⟨expr, rfl, by omega, hse, ?_⟩
              intro i hi
              have hx := h i hi
              by_cases hu : Inlining.countVarUsage (params.getD i 0) expr ≤ 1
              · exact Or.inl hu
              · right
                simp only [if_neg hu] at hx
                cases harg : args.get? i with
                | none => exact absurd (List.get?_eq_none.mp harg) (by omega)
                | some arg =>
                    rw [harg] at hx
                    simp only [Bool.and_eq_true, Bool.not_eq_true', decide_eq_true_eq] at hx
                    exact ⟨arg, rfl, hx.1, hx.2⟩
            · rintro ⟨e, he, _, _, hall⟩
              subst he
              intro i hi
              rcases hall i hi with hu | ⟨arg, harg, hsef, hlt⟩
              · rw [if_pos hu]
              · by_cases hu : Inlining.countVarUsage (params.getD i 0) expr ≤ 1
                · rw [if_pos hu]
                · rw [if_neg hu, harg]
                  simp [hsef, hlt]
  · constructor
    · intro h
      simp only [ne_eq, hlen, not_false_eq_true, if_true] at h
      cases h
    · rintro ⟨h, _⟩
      exact absurd h hlen

/-- C5 amended witness: the criterion applied at the call f7(f8()) of
exFunMapDropArg: arity matches, the body is return 5 with 1 node and no
side effects, and the single parameter (var 4) occurs 0 times, so the call
is accepted although its argument is a side-effecting call. -/
theorem c5_inline_criterion_witness :
    Inlining.lookupFun exFunMapDropArg 7 =
      some (.Function 100 7 [4] (.Block 101 [.Return 102 (.IntLit 103 5)])) ∧
    Inlining.shouldInlineFunction exFunMapDropArg
      (.FunctionCall 121 7 [.FunctionCall 122 8 []]) = true := by
  refine ⟨rfl, ?_⟩
  rw [c5_inline_criterion exFunMapDropArg 121 7 [.FunctionCall 122 8 []]
    100 7 [4] (.Block 101 [.Return 102 (.IntLit 103 5)]) rfl]
  refine ⟨rfl, .IntLit 103 5, rfl, by decide, rfl, ?_⟩
  intro i hi
  have h0 : i = 0 := by simp at hi; omega
  subst h0
  exact Or.inl (by decide)

/-- Evaluation of a binary node from the values of its children. -/
theorem evalExpr_math2_eq (env : Nat → Int) (pc : Nat) (op : String) (l r : AST)
    (a b : Int) (hl : evalExpr env l = some a) (hr : evalExpr env r = some b) :
    evalExpr env (.Math2 pc op l r) = evalMath2Op op a b := by
  have h0 : evalExpr env (.Math2 pc op l r) =
      (match evalExpr env l, evalExpr env r with
       | some x, some y => evalMath2Op op x y
       | _, _ => none) := rfl
  rw [h0, hl, hr]

/-- C7 (confirmed): for each of the four supported operator and direction
pairs, the main loop condition the unroller builds evaluates, over the
integers, exactly to the bound formula of the spec: increasing exclusive <
iterates while v <= bound - factor; increasing inclusive <= while
v <= bound - factor; decreasing exclusive > while v > bound + (factor - 1);
decreasing inclusive >= while v >= bound + factor. -/
theorem c7_adjusted_conditions :
    (∀ (f : Int) (pat : LoopUnroll.LoopPattern) (pc pv x : Nat) (rhs : AST)
       (env : Nat → Int) (b : Int),
      0 < pat.increment → LoopUnroll.cloneNode rhs = some rhs →
      evalExpr env rhs = some b →
      ∃ c', LoopUnroll.adjustConditionForUnrolling f (.Math2 pc "<" (.Var pv x) rhs) pat =
              some c' ∧
        evalExpr env c' = some (if env x ≤ b - f then 1 else 0)) ∧
    (∀ (f : Int) (pat : LoopUnroll.LoopPattern) (pc pv x : Nat) (rhs : AST)
       (env : Nat → Int) (b : Int),
      0 < pat.increment → LoopUnroll.cloneNode rhs = some rhs →
      evalExpr env rhs = some b →
      ∃ c', LoopUnroll.adjustConditionForUnrolling f (.Math2 pc "<=" (.Var pv x) rhs) pat =
              some c' ∧
        evalExpr env c' = some (if env x ≤ b - f then 1 else 0)) ∧
    (∀ (f : Int) (pat : LoopUnroll.LoopPattern) (pc pv x : Nat) (rhs : AST)
       (env : Nat → Int) (b : Int),
      pat.increment < 0 → LoopUnroll.cloneNode rhs = some rhs →
      evalExpr env rhs = some b →
      ∃ c', LoopUnroll.adjustConditionForUnrolling f (.Math2 pc ">" (.Var pv x) rhs) pat =
              some c' ∧
        evalExpr env c' = some (if env x > b + (f - 1) then 1 else 0)) ∧
    (∀ (f : Int) (pat : LoopUnroll.LoopPattern) (pc pv x : Nat) (rhs : AST)
       (env : Nat → Int) (b : Int),
      pat.increment < 0 → LoopUnroll.cloneNode rhs = some rhs →
      evalExpr env rhs = some b →
      ∃ c', LoopUnroll.adjustConditionForUnrolling f (.Math2 pc ">=" (.Var pv x) rhs) pat =
              some c' ∧
        evalExpr env c' = some (if env x ≥ b + f then 1 else 0)) := by
  refine ⟨?_, ?_, ?_, ?_⟩
  · intro f pat pc pv x rhs env b hinc hclone heval
    refine ⟨.Math2 pc "<" (.Var pv x) (.Math2 pc "-" rhs (.IntLit pc (f - 1))), ?_, ?_⟩
    · unfold LoopUnroll.adjustConditionForUnrolling
      dsimp only
      rw [if_pos (show ("<" : String) = "<" ∧ pat.increment > 0 from ⟨rfl, hinc⟩)]
      rw [show LoopUnroll.cloneNode (.Var pv x) = some (.Var pv x) from rfl, hclone]
    · have h1 : evalExpr env (.Math2 pc "-" rhs (.IntLit pc (f - 1))) = some (b - (f - 1)) := by
        rw [evalExpr_math2_eq env pc "-" rhs (.IntLit pc (f - 1)) b (f - 1) heval rfl]
        rfl
      rw [evalExpr_math2_eq env pc "<" (.Var pv x) (.Math2 pc "-" rhs (.IntLit pc (f - 1)))
        (env x) (b - (f - 1)) rfl h1]
      show some (if env x < b - (f - 1) then (1 : Int) else 0) = _
      rw [if_congr (show (env x < b - (f - 1)) ↔ (env x ≤ b - f) by omega) rfl rfl]
  · intro f pat pc pv x rhs env b hinc hclone heval
    refine ⟨.Math2 pc "<=" (.Var pv x) (.Math2 pc "-" rhs (.IntLit pc f)), ?_, ?_⟩
    · unfold LoopUnroll.adjustConditionForUnrolling
      dsimp only
      rw [if_neg (show ¬(("<=" : String) = "<" ∧ pat.increment > 0) by simp)]
      rw [if_pos (show ("<=" : String) = "<=" ∧ pat.increment > 0 from ⟨rfl, hinc⟩)]
      rw [show LoopUnroll.cloneNode (.Var pv x) = some (.Var pv x) from rfl, hclone]
    · have h1 : evalExpr env (.Math2 pc "-" rhs (.IntLit pc f)) = some (b - f) := by
        rw [evalExpr_math2_eq env pc "-" rhs (.IntLit pc f) b f heval rfl]
        rfl
      rw [evalExpr_math2_eq env pc "<=" (.Var pv x) (.Math2 pc "-" rhs (.IntLit pc f))
        (env x) (b - f) rfl h1]
      rfl
  · intro f pat pc pv x rhs env b hinc hclone heval
    refine ⟨.Math2 pc ">" (.Var pv x) (.Math2 pc "+" rhs (.IntLit pc (f - 1))), ?_, ?_⟩
    · unfold LoopUnroll.adjustConditionForUnrolling
      dsimp only
      rw [if_neg (show ¬((">" : String) = "<" ∧ pat.increment > 0) by simp)]
      rw [if_neg (show ¬((">" : String) = "<=" ∧ pat.increment > 0) by simp)]
      rw [if_pos (show (">" : String) = ">" ∧ pat.increment < 0 from ⟨rfl, hinc⟩)]
      rw [show LoopUnroll.cloneNode (.Var pv x) = some (.Var pv x) from rfl, hclone]
    · have h1 : evalExpr env (.Math2 pc "+" rhs (.IntLit pc (f - 1))) = some (b + (f - 1)) := by
        rw [evalExpr_math2_eq env pc "+" rhs (.IntLit pc (f - 1)) b (f - 1) heval rfl]
        rfl
      rw [evalExpr_math2_eq env pc ">" (.Var pv x) (.Math2 pc "+" rhs (.IntLit pc (f - 1)))
        (env x) (b + (f - 1)) rfl h1]
      rfl
  · intro f pat pc pv x rhs env b hinc hclone heval
    refine ⟨.Math2 pc ">=" (.Var pv x) (.Math2 pc "+" rhs (.IntLit pc f)), ?_, ?_⟩
    · unfold LoopUnroll.adjustConditionForUnrolling
      dsimp only
      rw [if_neg (show ¬((">=" : String) = "<" ∧ pat.increment > 0) by simp)]
      rw [if_neg (show ¬((">=" : String) = "<=" ∧ pat.increment > 0) by simp)]
      rw [if_neg (show ¬((">=" : String) = ">" ∧ pat.increment < 0) by simp)]
      rw [if_pos (show (">=" : String) = ">=" ∧ pat.increment < 0 from ⟨rfl, hinc⟩)]
      rw [show LoopUnroll.cloneNode (.Var pv x) = some (.Var pv x) from rfl, hclone]
    · have h1 : evalExpr env (.Math2 pc "+" rhs (.IntLit pc f)) = some (b + f) := by
        rw [evalExpr_math2_eq env pc "+" rhs (.IntLit pc f) b f heval rfl]
        rfl
      rw [evalExpr_math2_eq env pc ">=" (.Var pv x) (.Math2 pc "+" rhs (.IntLit pc f))
        (env x) (b + f) rfl h1]
      rfl
/-- C7 witness: at factor 4, bound literal 10, v = 0 (increasing cases with
step 1) and v = 20 (decreasing cases with step -1), the four adjusted
conditions evaluate to the spec formulas. -/
theorem c7_adjusted_conditions_witness :
    ((0 : Int) < ({ LoopUnroll.LoopPattern.empty with increment := 1 } :
        LoopUnroll.LoopPattern).increment) ∧
    (({ LoopUnroll.LoopPattern.empty with increment := -1 } :
        LoopUnroll.LoopPattern).increment < 0) ∧
    LoopUnroll.cloneNode (.IntLit 3 10) = some (.IntLit 3 10) ∧
    evalExpr (fun _ => 0) (.IntLit 3 10) = some 10 ∧
    evalExpr (fun _ => 20) (.IntLit 3 10) = some 10 ∧
    (∃ c', LoopUnroll.adjustConditionForUnrolling 4
        (.Math2 1 "<" (.Var 2 5) (.IntLit 3 10))
        { LoopUnroll.LoopPattern.empty with increment := 1 } = some c' ∧
      evalExpr (fun _ => 0) c' = some (if (0 : Int) ≤ 10 - 4 then 1 else 0)) ∧
    (∃ c', LoopUnroll.adjustConditionForUnrolling 4
        (.Math2 1 "<=" (.Var 2 5) (.IntLit 3 10))
        { LoopUnroll.LoopPattern.empty with increment := 1 } = some c' ∧
      evalExpr (fun _ => 0) c' = some (if (0 : Int) ≤ 10 - 4 then 1 else 0)) ∧
    (∃ c', LoopUnroll.adjustConditionForUnrolling 4
        (.Math2 1 ">" (.Var 2 5) (.IntLit 3 10))
        { LoopUnroll.LoopPattern.empty with increment := -1 } = some c' ∧
      evalExpr (fun _ => 20) c' = some (if (20 : Int) > 10 + (4 - 1) then 1 else 0)) ∧
    (∃ c', LoopUnroll.adjustConditionForUnrolling 4
        (.Math2 1 ">=" (.Var 2 5) (.IntLit 3 10))
        { LoopUnroll.LoopPattern.empty with increment := -1 } = some c' ∧
      evalExpr (fun _ => 20) c' = some (if (20 : Int) ≥ 10 + 4 then 1 else 0)) :=
  ⟨by decide, by decide, rfl, rfl, rfl,
    c7_adjusted_conditions.1 4 _ 1 2 5 (.IntLit 3 10) (fun _ => 0) 10 (by decide) rfl rfl,
    c7_adjusted_conditions.2.1 4 _ 1 2 5 (.IntLit 3 10) (fun _ => 0) 10 (by decide) rfl rfl,
    c7_adjusted_conditions.2.2.1 4 _ 1 2 5 (.IntLit 3 10) (fun _ => 20) 10 (by decide) rfl rfl,
    c7_adjusted_conditions.2.2.2 4 _ 1 2 5 (.IntLit 3 10) (fun _ => 20) 10 (by decide) rfl rfl⟩

theorem LoopUnroll.isSimpleIncrement_shape :
    ∀ (n : AST) (v : Nat) (k : Int),
      LoopUnroll.isSimpleIncrement n = some (v, k) →
      ∃ pa pm pv2 pv3 pk rop kk,
        n = .Math2 pa "=" (.Var pv2 v) (.Math2 pm rop (.Var pv3 v) (.IntLit pk kk)) ∧
        (rop = "+" ∨ rop = "-") := by
  intro n v k h
  unfold LoopUnroll.isSimpleIncrement at h
  split at h
  case h_2 => cases h
  rename_i pa op lhs rhs
  split at h
  case isFalse => cases h
  rename_i hop
  split at h
  case h_2 => cases h
  rename_i pv2 varName
  split at h
  case h_2 => cases h
  rename_i pm rop addLhs addRhs
  split at h
  case isFalse => cases h
  rename_i hrop
  split at h
  case h_2 => cases h
  rename_i pv3 addLeft
  split at h
  case isFalse => cases h
  rename_i heq
  split at h
  case h_2 => cases h
  rename_i pk kk
  injection h with h
  injection h with h1 h2
  subst hop heq h1
  exact ⟨pa, pm, pv2, pv3, pk, rop, kk, rfl, hrop⟩

theorem LoopUnroll.isSimpleComparison_shape :
    ∀ (n : AST) (lv : Nat) (op rv : String),
      LoopUnroll.isSimpleComparison n = some (lv, op, rv) →
      ∃ pc pv rhs,
        n = .Math2 pc op (.Var pv lv) rhs ∧
        (op = "<=" ∨ op = "<" ∨ op = ">=" ∨ op = ">" ∨ op = "!=" ∨ op = "==") ∧
        ((∃ pr n2, rhs = .Var pr n2) ∨ (∃ pr n2, rhs = .IntLit pr n2)) := by
  intro n lv op rv h
  unfold LoopUnroll.isSimpleComparison at h
  split at h
  case h_1 => cases h
  case h_3 => cases h
  rename_i pc op0 lhs rhs
  split at h
  case isFalse => cases h
  rename_i hop
  split at h
  case h_2 => cases h
  rename_i pv leftVar
  split at h
  case h_3 => cases h
  · rename_i pr rightVar
    injection h with h
    injection h with h1 h2
    injection h2 with h2 h3
    subst h1 h2
    exact ⟨pc, pv, _, rfl, hop, Or.inl ⟨pr, rightVar, rfl⟩⟩
  · rename_i pr n2
    injection h with h
    injection h with h1 h2
    injection h2 with h2 h3
    subst h1 h2
    exact ⟨pc, pv, _, rfl, hop, Or.inr ⟨pr, n2, rfl⟩⟩

theorem LoopUnroll.findIncrementAux_spec :
    ∀ (cs : List AST) (v j idx : Nat) (node : AST),
      LoopUnroll.findIncrementAux v j cs = some (idx, node) →
      ∃ i, idx = j + i ∧ cs.get? i = some node ∧
        ∃ k, LoopUnroll.isSimpleIncrement node = some (v, k) := by
  intro cs
  induction cs with
  | nil => intro v j idx node h; cases h
  | cons c t ih =>
      intro v j idx node h
      unfold LoopUnroll.findIncrementAux at h
      split at h
      · rename_i incVar k0 hinc
        split at h
        · rename_i hv
          injection h with h
          injection h with h1 h2
          subst h1 h2 hv
          exact ⟨0, by omega, rfl, k0, hinc⟩
        · obtain ⟨i, hi, hg, hk⟩ := ih v (j + 1) idx node h
          exact ⟨i + 1, by omega, by simpa using hg, hk⟩
      · obtain ⟨i, hi, hg, hk⟩ := ih v (j + 1) idx node h
        exact ⟨i + 1, by omega, by simpa using hg, hk⟩

/-- C2 amended: a While is marked unrollable only when its condition is a
binary comparison with operator among <, <=, >, >=, != or == whose left
operand is a variable and whose right operand is a variable or an integer
literal, and its body is a Block among whose direct children exactly one is
an assignment to the condition variable, that one having the shape
v = v + k or v = v - k with k an arbitrary integer literal (no restriction
to |k| = 1, no direction check, and no exclusion of == or !=). -/
theorem c2_candidate_shape :
    ∀ (w : AST), (LoopUnroll.analyzeLoop w).isUnrollable = true →
      ∃ p pb cs pc pv op lv rhs,
        w = .While p (.Math2 pc op (.Var pv lv) rhs) (.Block pb cs) ∧
        (op = "<=" ∨ op = "<" ∨ op = ">=" ∨ op = ">" ∨ op = "!=" ∨ op = "==") ∧
        ((∃ pr n2, rhs = .Var pr n2) ∨ (∃ pr n2, rhs = .IntLit pr n2)) ∧
        (∃ idx pa pm pv2 pv3 pk rop kk,
          cs.get? idx =
            some (.Math2 pa "=" (.Var pv2 lv) (.Math2 pm rop (.Var pv3 lv) (.IntLit pk kk))) ∧
          (rop = "+" ∨ rop = "-")) ∧
        cs.countP (fun c => LoopUnroll.isAssignmentTo c lv) = 1 := by
  intro w h
  unfold LoopUnroll.analyzeLoop at h
  split at h
  case h_2 => simp [LoopUnroll.LoopPattern.empty] at h
  rename_i p cond body
  split at h
  case h_1 => simp [LoopUnroll.LoopPattern.empty] at h
  rename_i lv op rv hcmp
  split at h
  case h_2 => simp [LoopUnroll.LoopPattern.empty] at h
  rename_i pb cs
  split at h
  case isTrue => simp [LoopUnroll.LoopPattern.empty] at h
  rename_i hctl
  split at h
  case h_1 => simp [LoopUnroll.LoopPattern.empty] at h
  rename_i idx node hfind
  split at h
  case h_1 => simp [LoopUnroll.LoopPattern.empty] at h
  rename_i incVar inc hinc
  split at h
  case isTrue => simp [LoopUnroll.LoopPattern.empty] at h
  rename_i hne
  split at h
  case isTrue => simp [LoopUnroll.LoopPattern.empty] at h
  rename_i hmult
  split at h
  case isFalse => simp [LoopUnroll.LoopPattern.empty] at h
  rename_i hop
  have hv : incVar = lv := by
    by_contra hx
    exact hne hx
  subst hv
  obtain ⟨pc, pv, rhs, hcshape, hopset, hrhs⟩ :=
    LoopUnroll.isSimpleComparison_shape cond incVar op rv hcmp
  obtain ⟨pa, pm, pv2, pv3, pk, rop, kk, hnshape, hropset⟩ :=
    LoopUnroll.isSimpleIncrement_shape node incVar inc hinc
  obtain ⟨i, hidx, hget, k2, hk2⟩ := LoopUnroll.findIncrementAux_spec cs incVar 0 idx node hfind
  subst hcshape
  refine ⟨p, pb, cs, pc, pv, op, incVar, rhs, rfl, hopset, hrhs, ?_, ?_⟩
  · exact ⟨i, pa, pm, pv2, pv3, pk, rop, kk, by rw [hget, hnshape], hropset⟩
  · have hle : ¬ (cs.countP (fun c => LoopUnroll.isAssignmentTo c incVar) > 1) := by
      intro hx
      rw [show LoopUnroll.hasMultipleAssignments cs incVar =
        decide (cs.countP (fun c => LoopUnroll.isAssignmentTo c incVar) > 1) from rfl] at hmult
      simp [hx] at hmult
    have hmem : node ∈ cs := List.get?_mem hget
    have hassign : LoopUnroll.isAssignmentTo node incVar = true := by
      rw [hnshape]
      simp [LoopUnroll.isAssignmentTo]
    have hpos : 0 < cs.countP (fun c => LoopUnroll.isAssignmentTo c incVar) :=
      List.countP_pos_iff.mpr ⟨node, hmem, hassign⟩
    omega

/-- C2 amended witness: the shape theorem applied to the != / step-2
candidate exLoopNeqStep2. -/
theorem c2_candidate_shape_witness :
    (LoopUnroll.analyzeLoop exLoopNeqStep2).isUnrollable = true ∧
    (∃ p pb cs pc pv op lv rhs,
      exLoopNeqStep2 = .While p (.Math2 pc op (.Var pv lv) rhs) (.Block pb cs) ∧
      (op = "<=" ∨ op = "<" ∨ op = ">=" ∨ op = ">" ∨ op = "!=" ∨ op = "==") ∧
      ((∃ pr n2, rhs = .Var pr n2) ∨ (∃ pr n2, rhs = .IntLit pr n2)) ∧
      (∃ idx pa pm pv2 pv3 pk rop kk,
        cs.get? idx =
          some (.Math2 pa "=" (.Var pv2 lv) (.Math2 pm rop (.Var pv3 lv) (.IntLit pk kk))) ∧
        (rop = "+" ∨ rop = "-")) ∧
      cs.countP (fun c => LoopUnroll.isAssignmentTo c lv) = 1) :=
  ⟨rfl, c2_candidate_shape exLoopNeqStep2 rfl⟩

theorem LoopUnroll.adjust_isSome :
    ∀ (f : Int) (cond : AST) (pat : LoopUnroll.LoopPattern),
      LoopUnroll.clonable cond = true →
      ∃ c', LoopUnroll.adjustConditionForUnrolling f cond pat = some c' := by
  intro f cond pat hc
  cases cond
  case Var p v => exact ⟨_, rfl⟩
  case IntLit p v => exact ⟨_, rfl⟩
  case Block p cs => exact ⟨_, LoopUnroll.cloneNode_of_clonable _ hc⟩
  case Math2 p op l r =>
      have hlr : LoopUnroll.clonable l = true ∧ LoopUnroll.clonable r = true := by
        simpa [LoopUnroll.clonable] using hc
      unfold LoopUnroll.adjustConditionForUnrolling
      dsimp only
      by_cases h1 : op = "<" ∧ pat.increment > 0
      · rw [if_pos h1]
        simp [LoopUnroll.cloneNode_of_clonable l hlr.1, LoopUnroll.cloneNode_of_clonable r hlr.2]
      · rw [if_neg h1]
        by_cases h2 : op = "<=" ∧ pat.increment > 0
        · rw [if_pos h2]
          simp [LoopUnroll.cloneNode_of_clonable l hlr.1, LoopUnroll.cloneNode_of_clonable r hlr.2]
        · rw [if_neg h2]
          by_cases h3 : op = ">" ∧ pat.increment < 0
          · rw [if_pos h3]
            simp [LoopUnroll.cloneNode_of_clonable l hlr.1,
              LoopUnroll.cloneNode_of_clonable r hlr.2]
          · rw [if_neg h3]
            by_cases h4 : op = ">=" ∧ pat.increment < 0
            · rw [if_pos h4]
              simp [LoopUnroll.cloneNode_of_clonable l hlr.1,
                LoopUnroll.cloneNode_of_clonable r hlr.2]
            · rw [if_neg h4]
              exact ⟨_, LoopUnroll.cloneNode_of_clonable _ hc⟩
  all_goals simp [LoopUnroll.clonable] at hc

/-- C1 amended: for an unrolling candidate whose condition and body children
all lie in the fragment the pass-local cloner supports (Math2 / Var /
IntLit / Block), the pass replaces the While by a Block whose two children
are, in order, the main unrolled loop and a remainder loop structurally
equal to the original While.  (Outside that fragment, failed child clones
are silently dropped instead of aborting the rewrite, as the counterexample
shows.) -/
theorem c1_unrolled_block_structure :
    ∀ (f : Int) (p pb : Nat) (cond : AST) (cs : List AST),
      (LoopUnroll.analyzeLoop (.While p cond (.Block pb cs))).isUnrollable = true →
      LoopUnroll.clonable cond = true →
      LoopUnroll.clonableList cs = true →
      ∃ m, LoopUnroll.createMainUnrolledLoop f (.While p cond (.Block pb cs))
              (LoopUnroll.analyzeLoop (.While p cond (.Block pb cs))) = some m ∧
        LoopUnroll.unrollWhileStatement f (.While p cond (.Block pb cs)) =
          some (.Block p [m, .While p cond (.Block pb cs)]) := by
  intro f p pb cond cs hun hcc hcs
  obtain ⟨c', hadj⟩ :=
    LoopUnroll.adjust_isSome f cond (LoopUnroll.analyzeLoop (.While p cond (.Block pb cs))) hcc
  have hmain : LoopUnroll.createMainUnrolledLoop f (.While p cond (.Block pb cs))
      (LoopUnroll.analyzeLoop (.While p cond (.Block pb cs))) =
      some (.While p c' (LoopUnroll.createFullyUnrolledBody f pb cs
        (LoopUnroll.analyzeLoop (.While p cond (.Block pb cs))))) := by
    unfold LoopUnroll.createMainUnrolledLoop
    dsimp only
    rw [hadj]
  have hrem : LoopUnroll.createRemainderLoop (.While p cond (.Block pb cs)) =
      some (.While p cond (.Block pb cs)) := by
    unfold LoopUnroll.createRemainderLoop
    dsimp only
    rw [LoopUnroll.cloneNode_of_clonable cond hcc,
      LoopUnroll.cloneNode_of_clonable (.Block pb cs) (by simpa [LoopUnroll.clonable] using hcs)]
  refine ⟨_, hmain, ?_⟩
  unfold LoopUnroll.unrollWhileStatement
  rw [if_pos hun]
  unfold LoopUnroll.createUnrolledBlock
  rw [hmain, hrem]
  rfl

/-- C1 amended witness: the theorem applied to the fully clonable counted
loop exCountedLoop at factor 4. -/
theorem c1_unrolled_block_structure_witness :
    (LoopUnroll.analyzeLoop exCountedLoop).isUnrollable = true ∧
    LoopUnroll.clonable (.Math2 1 "<" (.Var 2 1) (.IntLit 3 10)) = true ∧
    (∃ m, LoopUnroll.createMainUnrolledLoop 4 exCountedLoop
            (LoopUnroll.analyzeLoop exCountedLoop) = some m ∧
      LoopUnroll.unrollWhileStatement 4 exCountedLoop = some (.Block 0 [m, exCountedLoop])) :=
  ⟨rfl, rfl,
    c1_unrolled_block_structure 4 0 4 (.Math2 1 "<" (.Var 2 1) (.IntLit 3 10))
      [.Math2 5 "=" (.Var 6 2) (.Math2 7 "+" (.Var 8 2) (.Var 9 1)),
       .Math2 10 "=" (.Var 11 1) (.Math2 12 "+" (.Var 13 1) (.IntLit 14 1))]
      rfl rfl rfl⟩

theorem countP_eq_of_subset_closed (p : Nat → Bool) (nodes order : List Nat)
    (hno : order.Nodup) (hnn : nodes.Nodup) (hns : ∀ x ∈ order, x ∈ nodes)
    (hall : ∀ u ∈ nodes, p u = true → u ∈ order) :
    nodes.countP p = order.countP p := by
  have h1 : nodes.countP p = (nodes.filter p).length := (List.countP_eq_length_filter _ _)
  have h2 : order.countP p = (order.filter p).length := (List.countP_eq_length_filter _ _)
  have hf1 : (nodes.filter p).Nodup := hnn.filter _
  have hf2 : (order.filter p).Nodup := hno.filter _
  have hset : (nodes.filter p).toFinset = (order.filter p).toFinset := by
    ext x
    simp only [List.mem_toFinset, List.mem_filter]
    constructor
    · rintro ⟨hx, hp⟩
      exact ⟨hall x hx hp, hp⟩
    · rintro ⟨hx, hp⟩
      exact ⟨hns x hx, hp⟩
  rw [h1, h2, ← List.toFinset_card_of_nodup hf1, ← List.toFinset_card_of_nodup hf2, hset]

theorem countP_two_more (p : Nat → Bool) (nodes order : List Nat)
    (hno : order.Nodup) (hnn : nodes.Nodup) (hns : ∀ x ∈ order, x ∈ nodes)
    (u w : Nat) (hu : u ∈ nodes) (hw : w ∈ nodes) (hune : u ∉ order) (hwne : w ∉ order)
    (huw : u ≠ w) (hpu : p u = true) (hpw : p w = true) :
    order.countP p + 2 ≤ nodes.countP p := by
  have h1 : nodes.countP p = (nodes.filter p).length := (List.countP_eq_length_filter _ _)
  have h2 : order.countP p = (order.filter p).length := (List.countP_eq_length_filter _ _)
  have hf1 : (nodes.filter p).Nodup := hnn.filter _
  have hf2 : (order.filter p).Nodup := hno.filter _
  have hsub : insert u (insert w (order.filter p).toFinset) ⊆ (nodes.filter p).toFinset := by
    intro x hx
    simp only [Finset.mem_insert, List.mem_toFinset, List.mem_filter] at hx ⊢
    rcases hx with rfl | rfl | ⟨hx1, hx2⟩
    · exact ⟨hu, hpu⟩
    · exact ⟨hw, hpw⟩
    · exact ⟨hns x hx1, hx2⟩
  have hwm : w ∉ (order.filter p).toFinset := by
    simp only [List.mem_toFinset, List.mem_filter]
    rintro ⟨hx, -⟩
    exact hwne hx
  have hum : u ∉ insert w (order.filter p).toFinset := by
    simp only [Finset.mem_insert, List.mem_toFinset, List.mem_filter]
    rintro (rfl | ⟨hx, -⟩)
    · exact huw rfl
    · exact hune hx
  have hcard : (insert u (insert w (order.filter p).toFinset)).card =
      (order.filter p).toFinset.card + 2 := by
    rw [Finset.card_insert_of_not_mem hum, Finset.card_insert_of_not_mem hwm]
  have := Finset.card_le_card hsub
  rw [hcard] at this
  rw [h1, h2, ← List.toFinset_card_of_nodup hf1, ← List.toFinset_card_of_nodup hf2]
  omega

namespace TailRec

theorem inNbrCount_append (adj : Nat → List Nat) (l1 l2 : List Nat) (v : Nat) :
    inNbrCount adj (l1 ++ l2) v = inNbrCount adj l1 v + inNbrCount adj l2 v := by
  simp [inNbrCount, List.countP_append]

theorem inNbrCount_singleton (adj : Nat → List Nat) (u v : Nat) :
    inNbrCount adj [u] v = if v ∈ adj u then 1 else 0 := by
  by_cases h : v ∈ adj u <;> simp [inNbrCount, List.countP_cons, h]

theorem KahnInv.order_nodup {adj nodes q indeg order} (hInv : KahnInv adj nodes q indeg order) :
    order.Nodup := (List.nodup_append.mp hInv.nodupOQ).1

theorem KahnInv.q_nodup {adj nodes q indeg order} (hInv : KahnInv adj nodes q indeg order) :
    q.Nodup := (List.nodup_append.mp hInv.nodupOQ).2.1

theorem KahnInv.disj {adj nodes q indeg order} (hInv : KahnInv adj nodes q indeg order) :
    ∀ v ∈ order, v ∉ q := by
  have := (List.nodup_append.mp hInv.nodupOQ).2.2
  intro v hv hq
  exact this hv hq

theorem KahnInv.processed_zero {adj nodes q indeg order}
    (hg : GraphOK adj nodes) (hInv : KahnInv adj nodes q indeg order) :
    ∀ v ∈ order, indeg v = 0 := by
  intro v hv
  rw [hInv.indegF v]
  have heq : inNbrCount adj nodes v = inNbrCount adj order v := by
    apply countP_eq_of_subset_closed _ nodes order hInv.order_nodup hg.nodesNodup
    · intro x hx
      exact hInv.memOQ x (List.mem_append.mpr (Or.inl hx))
    · intro u hu hp
      exact hInv.ready v (List.mem_append.mpr (Or.inl hv)) u hu (of_decide_eq_true hp)
  rw [heq]
  omega

theorem KahnInv.queued_zero {adj nodes q indeg order}
    (hg : GraphOK adj nodes) (hInv : KahnInv adj nodes q indeg order) :
    ∀ v ∈ q, indeg v = 0 := by
  intro v hv
  rw [hInv.indegF v]
  have heq : inNbrCount adj nodes v = inNbrCount adj order v := by
    apply countP_eq_of_subset_closed _ nodes order hInv.order_nodup hg.nodesNodup
    · intro x hx
      exact hInv.memOQ x (List.mem_append.mpr (Or.inl hx))
    · intro u hu hp
      exact hInv.ready v (List.mem_append.mpr (Or.inr hv)) u hu (of_decide_eq_true hp)
  rw [heq]
  omega

theorem kahn_push_facts {adj nodes : _} {q indeg order} {u : Nat} {rest : List Nat}
    (hg : GraphOK adj nodes) (hInv : KahnInv adj nodes q indeg order)
    (hq : q = u :: rest) :
    ∀ v ∈ (adj u).filter (fun v => indeg v - 1 = 0),
      v ∈ adj u ∧ indeg v = 1 ∧ v ∉ order ∧ v ∉ q ∧
      (∀ w, w ∈ nodes → v ∈ adj w → w ∈ order ++ [u]) := by
  intro v hv
  rw [List.mem_filter] at hv
  obtain ⟨hvadj, hvz⟩ := hv
  have hvz : indeg v = 1 := by
    have := of_decide_eq_true hvz
    omega
  have hvo : v ∉ order := by
    intro hx
    have := hInv.processed_zero hg v hx
    omega
  have hvq : v ∉ q := by
    intro hx
    have := hInv.queued_zero hg v hx
    omega
  have hu : u ∈ nodes := hInv.memOQ u (by rw [hq]; simp)
  have huo : u ∉ order := by
    intro hx
    exact hInv.disj u hx (by rw [hq]; simp)
  refine ⟨hvadj, hvz, hvo, hvq, ?_⟩
  intro w hwn hwadj
  rw [List.mem_append]
  by_contra hcon
  push_neg at hcon
  obtain ⟨hwo, hwu⟩ := hcon
  have hwu : w ≠ u := by simpa using hwu
  have h2 : inNbrCount adj order v + 2 ≤ inNbrCount adj nodes v := by
    apply countP_two_more _ nodes order hInv.order_nodup hg.nodesNodup
      (fun x hx => hInv.memOQ x (List.mem_append.mpr (Or.inl hx)))
      u w hu hwn huo hwo (fun h => hwu h.symm)
    · exact decide_eq_true hvadj
    · exact decide_eq_true hwadj
  have := hInv.indegF v
  omega

end TailRec

namespace TailRec

theorem kahnInv_step {adj nodes indeg order} {u : Nat} {rest : List Nat}
    (hg : GraphOK adj nodes) (hInv : KahnInv adj nodes (u :: rest) indeg order) :
    KahnInv adj nodes (rest ++ (adj u).filter (fun v => indeg v - 1 = 0))
      (fun v => if v ∈ adj u then indeg v - 1 else indeg v) (order ++ [u]) := by
  have hpush := kahn_push_facts hg hInv rfl
  have hu : u ∈ nodes := hInv.memOQ u (by simp)
  have huo : u ∉ order := fun hx => hInv.disj u hx (by simp)
  have hnodup0 : ((order ++ [u]) ++ rest).Nodup := by
    have h0 := hInv.nodupOQ
    rw [List.append_cons] at h0
    exact h0
  constructor
  · -- nodup of (order ++ [u]) ++ (rest ++ pushes)
    rw [List.nodup_append] at hnodup0 ⊢
    refine ⟨hnodup0.1, ?_, ?_⟩
    · rw [List.nodup_append]
      refine ⟨hnodup0.2.1, (hg.adjNodup u).filter _, ?_⟩
      intro v hvrest hvpush
      exact (hpush v hvpush).2.2.2.1 (by simp [hvrest])
    · intro v hv hx
      rcases List.mem_append.mp hx with hvr | hvp
      · exact hnodup0.2.2 hv hvr
      · have hfacts := hpush v hvp
        rcases List.mem_append.mp hv with hvo | hvu
        · exact hfacts.2.2.1 hvo
        · have hvu2 : v = u := by simpa using hvu
          subst hvu2
          exact hfacts.2.2.2.1 (by simp)
  · intro v hv
    rcases List.mem_append.mp hv with hv1 | hv2
    · rcases List.mem_append.mp hv1 with hvo | hvu
      · exact hInv.memOQ v (by simp [hvo])
      · have : v = u := by simpa using hvu
        subst this
        exact hu
    · rcases List.mem_append.mp hv2 with hvr | hvp
      · exact hInv.memOQ v (by simp [hvr])
      · exact hg.adjSub u v (List.mem_filter.mp hvp).1
  · intro v
    rw [inNbrCount_append, inNbrCount_singleton]
    have := hInv.indegF v
    by_cases hadj : v ∈ adj u <;> simp [hadj] <;> omega
  · intro v hv w hwn hwadj
    rcases List.mem_append.mp hv with hv1 | hv2
    · rcases List.mem_append.mp hv1 with hvo | hvu
      · exact List.mem_append.mpr (Or.inl
          (hInv.ready v (List.mem_append.mpr (Or.inl hvo)) w hwn hwadj))
      · have : v = u := by simpa using hvu
        subst this
        exact List.mem_append.mpr (Or.inl
          (hInv.ready v (List.mem_append.mpr (Or.inr (by simp))) w hwn hwadj))
    · rcases List.mem_append.mp hv2 with hvr | hvp
      · exact List.mem_append.mpr (Or.inl
          (hInv.ready v (List.mem_append.mpr (Or.inr (by simp [hvr]))) w hwn hwadj))
      · exact (hpush v hvp).2.2.2.2 w hwn hwadj

theorem kahnRun_cycle_avoid {adj : Nat → List Nat} {nodes : List Nat}
    (hg : GraphOK adj nodes) (C : List Nat)
    (hCsub : ∀ v ∈ C, v ∈ nodes)
    (hCpred : ∀ v ∈ C, ∃ w ∈ C, v ∈ adj w) :
    ∀ (fuel : Nat) (q : List Nat) (indeg : Nat → Int) (order : List Nat),
      KahnInv adj nodes q indeg order →
      (∀ v ∈ C, v ∉ order ∧ v ∉ q) →
      (∀ v ∈ C, v ∉ kahnRun adj fuel q indeg order) ∧
      (kahnRun adj fuel q indeg order).Nodup ∧
      (∀ v ∈ kahnRun adj fuel q indeg order, v ∈ nodes) := by
  intro fuel
  induction fuel with
  | zero =>
      intro q indeg order hInv hdis
      refine ⟨fun v hv => (hdis v hv).1, hInv.order_nodup, ?_⟩
      intro v hv
      exact hInv.memOQ v (List.mem_append.mpr (Or.inl hv))
  | succ fuel ih =>
      intro q indeg order hInv hdis
      cases q with
      | nil =>
          refine ⟨fun v hv => (hdis v hv).1, hInv.order_nodup, ?_⟩
          intro v hv
          exact hInv.memOQ v (List.mem_append.mpr (Or.inl hv))
      | cons u rest =>
          have hstep :
              kahnRun adj (fuel + 1) (u :: rest) indeg order =
              kahnRun adj fuel (rest ++ (adj u).filter (fun v => indeg v - 1 = 0))
                (fun v => if v ∈ adj u then indeg v - 1 else indeg v) (order ++ [u]) := rfl
          rw [hstep]
          apply ih _ _ _ (kahnInv_step hg hInv)
          intro v hv
          have hpush := kahn_push_facts hg hInv rfl
          obtain ⟨hvo, hvq⟩ := hdis v hv
          constructor
          · intro hx
            rcases List.mem_append.mp hx with hx1 | hx2
            · exact hvo hx1
            · have : v = u := by simpa using hx2
              subst this
              exact hvq (by simp)
          · intro hx
            rcases List.mem_append.mp hx with hx1 | hx2
            · exact hvq (by simp [hx1])
            · obtain ⟨w, hwC, hwadj⟩ := hCpred v hv
              have hw := (hpush v hx2).2.2.2.2 w (hCsub w hwC) hwadj
              rcases List.mem_append.mp hw with hw1 | hw2
              · exact (hdis w hwC).1 hw1
              · have : w = u := by simpa using hw2
                subst this
                exact (hdis w hwC).2 (by simp)

end TailRec

namespace TailRec

theorem kahnRun_incomplete_of_cycle {adj : Nat → List Nat} {nodes : List Nat}
    (hg : GraphOK adj nodes) (indeg0 : Nat → Int)
    (hind : ∀ v, indeg0 v = (inNbrCount adj nodes v : Int))
    (hcyc : HasInCycle adj nodes) (fuel : Nat) :
    (kahnRun adj fuel (nodes.filter (fun i => indeg0 i = 0)) indeg0 []).length ≠
      nodes.length := by
  obtain ⟨C, hCne, hCsub, hCpred⟩ := hcyc
  have hInv0 : KahnInv adj nodes (nodes.filter (fun i => indeg0 i = 0)) indeg0 [] := by
    constructor
    · simpa using hg.nodesNodup.filter _
    · intro v hv
      simp only [List.nil_append] at hv
      exact (List.mem_filter.mp hv).1
    · intro v
      rw [hind v]
      simp [inNbrCount]
    · intro v hv w hwn hwadj
      simp only [List.nil_append] at hv
      obtain ⟨hv1, hv2⟩ := List.mem_filter.mp hv
      have hz : inNbrCount adj nodes v = 0 := by
        have := of_decide_eq_true hv2
        rw [hind v] at this
        omega
      rw [inNbrCount, List.countP_eq_zero] at hz
      exact absurd (decide_eq_true hwadj) (hz w hwn)
  have hdis0 : ∀ v ∈ C, v ∉ ([] : List Nat) ∧
      v ∉ nodes.filter (fun i => indeg0 i = 0) := by
    intro v hv
    refine ⟨by simp, ?_⟩
    intro hx
    obtain ⟨w, hwC, hwadj⟩ := hCpred v hv
    have hz := of_decide_eq_true (List.mem_filter.mp hx).2
    rw [hind v] at hz
    have hpos : 0 < inNbrCount adj nodes v := by
      rw [inNbrCount, List.countP_pos_iff]
      exact ⟨w, hCsub w hwC, decide_eq_true hwadj⟩
    omega
  obtain ⟨havoid, hnodup, hsub⟩ :=
    kahnRun_cycle_avoid hg C hCsub hCpred fuel _ indeg0 [] hInv0 hdis0
  intro hlen
  obtain ⟨c0, hc0⟩ : ∃ c0, c0 ∈ C := by
    cases C with
    | nil => exact absurd rfl hCne
    | cons a t => exact ⟨a, by simp⟩
  set result := kahnRun adj fuel (nodes.filter (fun i => indeg0 i = 0)) indeg0 [] with hres
  have hssub : result.toFinset ⊂ nodes.toFinset := by
    constructor
    · intro x hx
      rw [List.mem_toFinset] at hx ⊢
      exact hsub x hx
    · intro hcon
      have hc0n : c0 ∈ nodes.toFinset := List.mem_toFinset.mpr (hCsub c0 hc0)
      have := hcon hc0n
      rw [List.mem_toFinset] at this
      exact havoid c0 hc0 this
  have hcard := Finset.card_lt_card hssub
  rw [List.toFinset_card_of_nodup hnodup, List.toFinset_card_of_nodup hg.nodesNodup] at hcard
  omega

theorem graphOK_of (params : List Nat) (args : List AST) :
    GraphOK (adjOf params args) (nodesOf params args) := by
  constructor
  · unfold nodesOf
    exact List.Nodup.filter _ (List.nodup_range params.length)
  · intro u
    unfold adjOf
    split
    · apply List.Nodup.filter
      unfold depsAt
      split
      · exact List.nodup_dedup _
      · exact List.nodup_nil
    · exact List.nodup_nil
  · intro u v hv
    unfold adjOf at hv
    split at hv
    · have := (List.mem_filter.mp hv).2
      have := of_decide_eq_true this
      exact this.2
    · cases hv
  · intro u hu
    unfold adjOf at hu
    split at hu
    · have := (List.mem_filter.mp hu).2
      have := of_decide_eq_true this
      exact this.1 rfl
    · cases hu

end TailRec


/-- C6 (confirmed): a tail self-call Return whose parameter-update
dependency graph (edge i to j when the new value for parameter i reads the
old value of parameter j, over the non-identity assignments) contains a
cycle is not rewritten: Kahn's queue never reaches any member of the cycle,
the computed order comes up short, and the pass keeps the Return as a plain
clone - the Return unchanged whenever it lies in the cloner-faithful
fragment, as a gcd-style swap does. -/
theorem c6_cycle_keeps_return :
    ∀ (p pc selfId : Nat) (params : List Nat) (args : List AST),
      args.length = params.length →
      TailRec.HasInCycle (TailRec.adjOf params args) (TailRec.nodesOf params args) →
      TailRec.transformNode selfId params (.Return p (.FunctionCall pc selfId args)) =
        (TailRec.clone (.Return p (.FunctionCall pc selfId args)), false) ∧
      (TailRec.clonable (.Return p (.FunctionCall pc selfId args)) = true →
        TailRec.transformNode selfId params (.Return p (.FunctionCall pc selfId args)) =
          (some (.Return p (.FunctionCall pc selfId args)), false)) := by
  intro p pc selfId params args hlen hcyc
  have hineq : (TailRec.kahnOrderOf params args).length ≠
      (TailRec.nodesOf params args).length :=
    TailRec.kahnRun_incomplete_of_cycle (TailRec.graphOK_of params args)
      (TailRec.indeg0Of params args) (fun v => rfl) hcyc _
  have hmain : TailRec.transformNode selfId params
      (.Return p (.FunctionCall pc selfId args)) =
      (TailRec.clone (.Return p (.FunctionCall pc selfId args)), false) := by
    show TailRec.transformReturn selfId params p (.FunctionCall pc selfId args) = _
    unfold TailRec.transformReturn
    dsimp only
    rw [if_pos ⟨rfl, hlen⟩, if_pos hineq]
  refine ⟨hmain, ?_⟩
  intro hclon
  rw [hmain, TailRec.clone_of_clonable _ hclon]

/-- C6 witness: the gcd-style tail return gcd(b, a % b) (parameters a, b)
has the two-cycle 0 - 1 in its dependency graph and is kept unchanged. -/
theorem c6_cycle_keeps_return_witness :
    exGcdArgs.length = [1, 2].length ∧
    TailRec.HasInCycle (TailRec.adjOf [1, 2] exGcdArgs) (TailRec.nodesOf [1, 2] exGcdArgs) ∧
    TailRec.transformNode 9 [1, 2] (.Return 30 (.FunctionCall 31 9 exGcdArgs)) =
      (some (.Return 30 (.FunctionCall 31 9 exGcdArgs)), false) :=
  ⟨rfl, ⟨[0, 1], by decide, by decide, by decide⟩,
    (c6_cycle_keeps_return 30 31 9 [1, 2] exGcdArgs rfl
      ⟨[0, 1], by decide, by decide, by decide⟩).2 rfl⟩
